import Mathlib

/-!
Verification development for the Metrics-to-Recommendation Rule Engine of
`scripts/generate-card.py`.

Shallow embedding conventions:
* Values produced by Python's `json.load` are modelled by `JVal`.  Python
  distinguishes `int` (arbitrary precision) from `float`; a parsed float may be
  non-finite (`json.load` accepts `Infinity`/`NaN`, and a literal such as
  `1e400` overflows to `inf`), so floats are modelled by `PFloat`: a finite
  rational or one of `inf`, `-inf`, `nan`.
* Finite float arithmetic is modelled exactly on rationals; IEEE rounding and
  overflow of intermediate arithmetic are not modelled, but non-finite values
  and the branches the code takes on them are.  Decimal literals in the source
  (`0.35`, `0.1`, `0.0001`, ...) are read as the exact rationals they denote.
* Code that can raise is modelled in `Except String`; the error string names
  the Python exception.  Code that cannot raise is a plain function.
* Python dicts (insertion ordered, string keys) are association lists with
  first-match lookup; a missing key and a JSON `null` both behave as Python's
  `None`, except for `dict.get(key, default)` where only a missing key yields
  the default.
* Recursive text scanners are written with an explicit fuel argument
  (`length + 1` always suffices, see the fuel lemmas) so that every
  definition is structurally recursive and kernel-computable.
-/

/- Batteries marks the `Rat` arithmetic operations `@[irreducible]`; this
development evaluates concrete runs of the embedded engine inside proofs, so
they are restored to the default reducibility. -/
set_option allowUnsafeReducibility true in
attribute [semireducible] Rat.mul Rat.add Rat.sub Rat.inv Rat.ofScientific

set_option maxRecDepth 8000
set_option exponentiation.threshold 1100

instance {ε α : Type} [DecidableEq ε] [DecidableEq α] : DecidableEq (Except ε α) := by
  intro a b
  cases a with
  | ok x =>
    cases b with
    | ok y =>
      exact if h : x = y then .isTrue (by rw [h]) else .isFalse (fun hc => h (by injection hc))
    | error f => exact .isFalse (fun hc => Except.noConfusion hc)
  | error e =>
    cases b with
    | ok y => exact .isFalse (fun hc => Except.noConfusion hc)
    | error f =>
      exact if h : e = f then .isTrue (by rw [h]) else .isFalse (fun hc => h (by injection hc))

/-- A Python float: a finite value (exact rational) or a non-finite value. -/
inductive PFloat where
  | val (q : ℚ)
  | inf
  | ninf
  | nan
deriving DecidableEq

/-- A Python number as produced by `json.load`: `int` or `float`. -/
inductive PNum where
  | int (n : ℤ)
  | float (x : PFloat)
deriving DecidableEq

/-- A value produced by `json.load` (Python object model). -/
inductive JVal where
  | null
  | bool (b : Bool)
  | num (n : PNum)
  | str (s : String)
  | arr (xs : List JVal)
  | obj (kvs : List (String × JVal))

namespace Engine

/-- `d.get(k)` for a Python dict modelled as an association list: missing key
behaves as `None`; the default argument `dflt` is returned only when the key
is absent (a present `null` is returned as-is). -/
def dgetD (kvs : List (String × JVal)) (k : String) (dflt : JVal) : JVal :=
  match kvs.lookup k with
  | some v => v
  | none => dflt

/-- `d.get(k)` with no default: missing key behaves as `None` (which the JSON
model cannot distinguish from a stored `null`). -/
def dget (kvs : List (String × JVal)) (k : String) : JVal :=
  dgetD kvs k .null

/-- `as_dict(value, label)` from generate-card.py lines 114-119: a dict passes
through, anything else (including `None`) becomes the empty dict (the warning
side effect is not modelled). -/
def as_dict (v : JVal) : List (String × JVal) :=
  match v with
  | .obj kvs => kvs
  | _ => []

/-- `as_list(value, label)` from generate-card.py lines 122-127. -/
def as_list (v : JVal) : List JVal :=
  match v with
  | .arr xs => xs
  | _ => []

/-- Attribute access `value.get(...)` requires an actual dict: any other value
raises `AttributeError` in Python. -/
def asDictE (v : JVal) : Except String (List (String × JVal)) :=
  match v with
  | .obj kvs => .ok kvs
  | _ => .error "AttributeError"

/-- Python truthiness of a JSON-derived value (`nan` and infinities are
truthy; empty containers, empty strings, zero and `None` are falsy). -/
def pyTruthy : JVal → Bool
  | .null => false
  | .bool b => b
  | .num (.int n) => n != 0
  | .num (.float (.val q)) => q != 0
  | .num (.float _) => true
  | .str s => s != ""
  | .arr xs => !xs.isEmpty
  | .obj kvs => !kvs.isEmpty

/-- `isinstance(v, (int, float))` — also true for `bool`, a subclass of `int`. -/
def isNumVal : JVal → Bool
  | .bool _ => true
  | .num _ => true
  | _ => false

/-- `isinstance(v, int)` — also true for `bool`. -/
def isIntVal : JVal → Bool
  | .bool _ => true
  | .num (.int _) => true
  | _ => false

/-- Python's `round` with no digits argument: round half to even, as an
integer.  (Total on rationals; the non-finite cases are handled at call
sites.) -/
def roundHalfEven (q : ℚ) : ℤ :=
  let f := ⌊q⌋
  let r := q - (f : ℚ)
  if r < 1 / 2 then f
  else if 1 / 2 < r then f + 1
  else if f % 2 = 0 then f else f + 1

/-- Python's `int()` on a finite float: truncation toward zero. -/
def pyTrunc (q : ℚ) : ℤ :=
  if q < 0 then -(⌊-q⌋) else ⌊q⌋

def infIntErr : String := "OverflowError: cannot convert float infinity to integer"
def nanIntErr : String := "ValueError: cannot convert float NaN to integer"

/-- `round(x)` on a Python float: raises on non-finite input. -/
def pyRoundE : PFloat → Except String ℤ
  | .val q => .ok (roundHalfEven q)
  | .nan => .error nanIntErr
  | _ => .error infIntErr

/-- `int(x)` on a Python float: truncates, raises on non-finite input. -/
def pyIntE : PFloat → Except String ℤ
  | .val q => .ok (pyTrunc q)
  | .nan => .error nanIntErr
  | _ => .error infIntErr

/-- `round(x, 1)`: rounds to one decimal digit, passes non-finite through. -/
def pfRound1 : PFloat → PFloat
  | .val q => .val ((roundHalfEven (q * 10) : ℤ) / 10)
  | x => x

/-- Multiplication of a Python float by 100 (the sign of 100 is positive, so
infinities keep their sign). -/
def pfMul100 : PFloat → PFloat
  | .val q => .val (q * 100)
  | x => x

/-- `a - x` where `a` is finite. -/
def pfSubFrom (a : ℚ) : PFloat → PFloat
  | .val q => .val (a - q)
  | .inf => .ninf
  | .ninf => .inf
  | .nan => .nan

/-- `float(v)` for a value already known to be `bool`/`int`/`float`
(call sites guard with `isNumVal`; other inputs do not occur there). -/
def floatOfJ : JVal → PFloat
  | .bool b => .val (if b then 1 else 0)
  | .num (.int n) => .val (n : ℚ)
  | .num (.float x) => x
  | _ => .val 0

def zeroPad (w : ℕ) (s : String) : String :=
  String.mk (List.replicate (w - s.length) '0') ++ s

/-- Python fixed-point formatting `f"{q:.prec f}"` on the exact rational:
round half to even at `prec` decimals; a negative value rounding to zero keeps
its sign (Python prints `-0.00`). -/
def fmtFixed (prec : ℕ) (q : ℚ) : String :=
  let n := roundHalfEven (q * ((10 ^ prec : ℕ) : ℚ))
  let a := n.natAbs
  let ip := a / 10 ^ prec
  let fd := a % 10 ^ prec
  (if q < 0 then "-" else "") ++ toString ip ++
    (if prec = 0 then "" else "." ++ zeroPad prec (toString fd))

/-- Insert thousands separators into a digit string (input reversed form). -/
def groupChunks : List Char → List Char
  | a :: b :: c :: d :: rest => a :: b :: c :: ',' :: groupChunks (d :: rest)
  | l => l

def groupThousands (s : String) : String :=
  String.mk ((groupChunks s.toList.reverse).reverse)

/-- Python formatting `f"{q:,.2f}"`: two decimals with thousands grouping. -/
def fmtMoney (q : ℚ) : String :=
  let n := roundHalfEven (q * 100)
  let a := n.natAbs
  (if q < 0 then "-" else "") ++ groupThousands (toString (a / 100)) ++
    "." ++ zeroPad 2 (toString (a % 100))

/-- `f"{x}"` for a float that is an exact multiple of 1/10 (which is what
`round(_, 1)` produces in this development): Python's shortest-repr printing
coincides with one-decimal printing there, and integral floats print `.0`. -/
def fmtPF1 : PFloat → String
  | .inf => "inf"
  | .ninf => "-inf"
  | .nan => "nan"
  | .val q =>
    let m := roundHalfEven (q * 10)
    (if m < 0 then "-" else "") ++ toString (m.natAbs / 10) ++ "." ++ toString (m.natAbs % 10)

def digitsToNat (ds : List Char) : ℕ :=
  ds.foldl (fun a c => 10 * a + (c.toNat - 48)) 0

/-- Whitespace for `str.strip()` and the regex class `\s` (ASCII part). -/
def pyIsSpace (c : Char) : Bool :=
  c = ' ' || c = '\t' || c = '\n' || c = '\r' || c = Char.ofNat 11 || c = Char.ofNat 12

def pyStrip (s : List Char) : List Char :=
  ((s.dropWhile pyIsSpace).reverse.dropWhile pyIsSpace).reverse

def toLowerList (s : List Char) : List Char := s.map Char.toLower

/-- Python's `float(string)` grammar: optional sign, `inf`/`infinity`/`nan`
(case-insensitive) or a decimal mantissa with optional fraction and exponent,
surrounded by optional whitespace.  Digit-group underscores are not modelled.
A magnitude at or beyond 2^1024 overflows to an infinity (the double range;
the exact rounding threshold near the boundary is not modelled). -/
def parseUnsignedFloat (cs : List Char) : Option PFloat :=
  if toLowerList cs = ['i', 'n', 'f'] || toLowerList cs = ['i', 'n', 'f', 'i', 'n', 'i', 't', 'y'] then
    some .inf
  else if toLowerList cs = ['n', 'a', 'n'] then some .nan
  else
    let ds := cs.takeWhile Char.isDigit
    let r1 := cs.dropWhile Char.isDigit
    let mant : Option (ℚ × List Char) :=
      match r1 with
      | '.' :: t =>
        let fs := t.takeWhile Char.isDigit
        if ds.isEmpty && fs.isEmpty then none
        else some ((digitsToNat ds : ℚ) + (digitsToNat fs : ℚ) / ((10 ^ fs.length : ℕ) : ℚ),
                   t.dropWhile Char.isDigit)
      | _ => if ds.isEmpty then none else some ((digitsToNat ds : ℚ), r1)
    match mant with
    | none => none
    | some (m, rest) =>
      let expPart : Option ℚ :=
        match rest with
        | [] => some m
        | 'e' :: t2 | 'E' :: t2 =>
          let (eneg, t3) := match t2 with
            | '-' :: u => (true, u)
            | '+' :: u => (false, u)
            | _ => (false, t2)
          let es := t3.takeWhile Char.isDigit
          if es.isEmpty || !(t3.dropWhile Char.isDigit).isEmpty then none
          else
            let e := digitsToNat es
            some (if eneg then m / ((10 ^ e : ℕ) : ℚ) else m * ((10 ^ e : ℕ) : ℚ))
        | _ => none
      match expPart with
      | none => none
      | some q => some (if q ≥ ((2 ^ 1024 : ℕ) : ℚ) then .inf else .val q)

def pyParseFloat (s : String) : Option PFloat :=
  let cs := pyStrip s.toList
  match cs with
  | '-' :: t =>
    match parseUnsignedFloat t with
    | some .inf => some .ninf
    | some .nan => some .nan
    | some (.val q) => some (.val (-q))
    | some .ninf => some .ninf
    | none => none
  | '+' :: t => parseUnsignedFloat t
  | _ => parseUnsignedFloat cs

/-- `safe_float` from generate-card.py lines 62-73.  `float()` of a huge
Python int is modelled exactly (its `OverflowError` is not modelled); every
other branch, including the `math.isfinite` default and the caught
`TypeError`/`ValueError`, is.  The result is always finite. -/
def safe_float (value : JVal) (dflt : ℚ) : ℚ :=
  match value with
  | .null => dflt
  | .bool b => if b then 1 else 0
  | .num (.int n) => (n : ℚ)
  | .num (.float (.val q)) => q
  | .num (.float _) => dflt
  | .str s =>
    match pyParseFloat s with
    | some (.val q) => q
    | some _ => dflt
    | none => dflt
  | _ => dflt

/-- `safe_int` from generate-card.py lines 76-84.  The except clause catches
only `TypeError` and `ValueError`; `int(float(v))` on an infinite value raises
`OverflowError`, which propagates — this is the overflow slip verified below. -/
def safe_int (value : JVal) (dflt : ℤ) : Except String ℤ :=
  match value with
  | .null => .ok dflt
  | .bool b => .ok (if b then 1 else 0)
  | .num (.int n) => .ok n
  | .num (.float (.val q)) => .ok (pyTrunc q)
  | .num (.float .nan) => .ok dflt
  | .num (.float _) => .error infIntErr
  | .str s =>
    match pyParseFloat s with
    | some (.val q) => .ok (pyTrunc q)
    | some .nan => .ok dflt
    | some _ => .error infIntErr
    | none => .ok dflt
  | _ => .ok dflt

def openBrace : Char := Char.ofNat 123
def closeBrace : Char := Char.ofNat 125

/-- `repr` of a float (used inside container `repr`).  Finite values are
rendered as exact decimals when the denominator divides a power of ten (the
only case arising from the documents evaluated here). -/
def pfRepr : PFloat → String
  | .inf => "inf"
  | .ninf => "-inf"
  | .nan => "nan"
  | .val q =>
    if q.den = 1 then toString q.num ++ ".0"
    else
      match (List.range 18).find? (fun k => (q * ((10 ^ k : ℕ) : ℚ)).den = 1) with
      | some k =>
        let n := (q * ((10 ^ k : ℕ) : ℚ)).num
        (if n < 0 then "-" else "") ++ toString (n.natAbs / 10 ^ k) ++ "." ++
          zeroPad k (toString (n.natAbs % 10 ^ k))
      | none => toString q.num ++ "/" ++ toString q.den

/-- `repr(v)` with a recursion-depth fuel (Python's own recursion limit makes
unbounded nesting unfaithful anyway); string escaping inside `repr` of a
string is not modelled beyond quoting. -/
def pyReprD : ℕ → JVal → String
  | 0, _ => ""
  | _ + 1, .null => "None"
  | _ + 1, .bool true => "True"
  | _ + 1, .bool false => "False"
  | _ + 1, .num (.int n) => toString n
  | _ + 1, .num (.float x) => pfRepr x
  | _ + 1, .str s => "'" ++ s ++ "'"
  | f + 1, .arr xs => "[" ++ String.intercalate ", " (xs.map (pyReprD f)) ++ "]"
  | f + 1, .obj kvs =>
    "\x7b" ++ String.intercalate ", " (kvs.map (fun kv => "'" ++ kv.1 ++ "': " ++ pyReprD f kv.2)) ++ "\x7d"

/-- `str(v)`: like `repr` except that a top-level string passes through. -/
def pyStr : JVal → String
  | .str s => s
  | v => pyReprD 1000 v

def joinErr : String := "TypeError: sequence item: expected str instance"

def allStrs : List JVal → Option (List String)
  | [] => some []
  | .str s :: rest => (allStrs rest).map (fun l => s :: l)
  | _ :: _ => none

/-- `sep.join(xs)`: raises `TypeError` when any element is not a string. -/
def pyJoin (sep : String) (xs : List JVal) : Except String String :=
  match allStrs xs with
  | some ss => .ok (String.intercalate sep ss)
  | none => .error joinErr

/-! ### Condition evaluator (`evaluate_condition`, lines 322-352)

The regex split `re.split(r"\s+OR\s+", ..., flags=re.IGNORECASE)` is modelled
by a left-to-right scanner: a separator occurrence is a maximal whitespace run
followed by the separator word (case-insensitively) followed by at least one
whitespace character, consuming the following whitespace run greedily.  This
matches the regex semantics because the pattern's pieces (`\s`, the letters of
`OR`/`AND`) have disjoint character classes, so backtracking can never produce
a different match, and a failed attempt anywhere inside a whitespace run fails
for every start position in that run. -/

/-- Character class `[a-zA-Z0-9_]` of the condition grammar and of the
placeholder-token regex. -/
def isTokenChar (c : Char) : Bool :=
  ('a' ≤ c && c ≤ 'z') || ('A' ≤ c && c ≤ 'Z') || ('0' ≤ c && c ≤ '9') || c = '_'

/-- Case-insensitive matching of the separator word: returns the rest. -/
def dropSepCI : List Char → List Char → Option (List Char)
  | [], s => some s
  | _ :: _, [] => none
  | a :: as, b :: bs => if a.toLower = b.toLower then dropSepCI as bs else none

/-- After a whitespace run: try to match the separator word followed by at
least one whitespace character; on success return what follows the (greedily
consumed) trailing whitespace run. -/
def sepWsMatch (sep : List Char) (after : List Char) : Option (List Char) :=
  match dropSepCI sep after with
  | some (c :: rest) => if pyIsSpace c then some ((c :: rest).dropWhile pyIsSpace) else none
  | _ => none

/-- Fuelled scanner for `re.split(r"\s+SEP\s+", s, flags=IGNORECASE)`.
Every recursive call consumes at least one character, so fuel
`s.length + 1` always suffices (the fuel-exhausted branch is unreachable). -/
def splitSepGo (sep : List Char) : ℕ → List Char → List Char → List (List Char)
  | 0, acc, s => [acc.reverse ++ s]
  | _ + 1, acc, [] => [acc.reverse]
  | f + 1, acc, c :: rest =>
    if pyIsSpace c then
      let after := (c :: rest).dropWhile pyIsSpace
      match sepWsMatch sep after with
      | some r2 => acc.reverse :: splitSepGo sep f [] r2
      | none => splitSepGo sep f (((c :: rest).takeWhile pyIsSpace).reverse ++ acc) after
    else splitSepGo sep f (c :: acc) rest

def pySplitSep (sep : List Char) (s : List Char) : List (List Char) :=
  splitSepGo sep (s.length + 1) [] s

/-- Comparison operators of the condition grammar. -/
inductive CmpOp where
  | gt | lt | ge | le | eq | ne
deriving DecidableEq

/-- The operator alternation `(>=|<=|>|<|==|!=)`, tried in the regex's order. -/
def parseOp : List Char → Option (CmpOp × List Char)
  | '>' :: '=' :: r => some (.ge, r)
  | '<' :: '=' :: r => some (.le, r)
  | '>' :: r => some (.gt, r)
  | '<' :: r => some (.lt, r)
  | '=' :: '=' :: r => some (.eq, r)
  | '!' :: '=' :: r => some (.ne, r)
  | _ => none

/-- The number part `-?[0-9]+(?:\.[0-9]+)?` anchored at the end of the term. -/
def parseNumEnd (cs : List Char) : Option ℚ :=
  let (neg, r) := match cs with
    | '-' :: t => (true, t)
    | _ => (false, cs)
  let ds := r.takeWhile Char.isDigit
  if ds.isEmpty then none
  else
    let ip : ℚ := (digitsToNat ds : ℕ)
    match r.dropWhile Char.isDigit with
    | [] => some (if neg then -ip else ip)
    | '.' :: t =>
      let fs := t.takeWhile Char.isDigit
      if fs.isEmpty || !(t.dropWhile Char.isDigit).isEmpty then none
      else
        let v := ip + (digitsToNat fs : ℚ) / ((10 ^ fs.length : ℕ) : ℚ)
        some (if neg then -v else v)
    | _ => none

/-- `re.match(r"^([a-zA-Z0-9_]+)\s*(>=|<=|>|<|==|!=)\s*(-?[0-9]+(?:\.[0-9]+)?)$", expr)`
on an already-stripped term. -/
def parseAtom (expr : List Char) : Option (String × CmpOp × ℚ) :=
  let name := expr.takeWhile isTokenChar
  if name.isEmpty then none
  else
    match parseOp ((expr.dropWhile isTokenChar).dropWhile pyIsSpace) with
    | none => none
    | some (op, r3) =>
      match parseNumEnd (r3.dropWhile pyIsSpace) with
      | none => none
      | some q => some (String.mk name, op, q)

def cmpQ : CmpOp → ℚ → ℚ → Bool
  | .gt, a, b => decide (a > b)
  | .lt, a, b => decide (a < b)
  | .ge, a, b => decide (a ≥ b)
  | .le, a, b => decide (a ≤ b)
  | .eq, a, b => decide (a = b)
  | .ne, a, b => decide (a ≠ b)

/-- `float(metrics.get(key, 0.0))`: a metric name absent from the map is the
value `0.0`. -/
def metricsGet (metrics : List (String × ℚ)) (k : String) : ℚ :=
  (metrics.lookup k).getD 0

/-- `eval_clause` from lines 329-350: split on AND, strip each term; a term
that fails to parse makes the whole clause false, otherwise all comparisons
must hold. -/
def eval_clause (metrics : List (String × ℚ)) (clause : List Char) : Bool :=
  ((pySplitSep ['A', 'N', 'D'] clause).map pyStrip).all fun expr =>
    match parseAtom expr with
    | none => false
    | some (k, op, q) => cmpQ op (metricsGet metrics k) q

/-- `evaluate_condition` from lines 322-352: strip; empty means false; split
on OR, strip each clause, true iff some clause evaluates true. -/
def evaluate_condition (condition : String) (metrics : List (String × ℚ)) : Bool :=
  let c := pyStrip condition.toList
  if c.isEmpty then false
  else ((pySplitSep ['O', 'R'] c).map pyStrip).any (eval_clause metrics)

/-! ### Metrics extractor (`build_metrics`, lines 288-319) -/

/-- Is the value Python's `None` (a missing key or a JSON null)? -/
def isNull : JVal → Bool
  | .null => true
  | _ => false

/-- Python `==` against a string literal for JSON-derived values. -/
def jvalEqStr (v : JVal) (s : String) : Bool :=
  match v with
  | .str t => t = s
  | _ => false

/-- `build_metrics` from lines 288-319, in source order.  `safe_int` can raise
(see `safe_int`), so the extractor is partial in the `Except` sense; every
value it does return is a finite rational by construction. -/
def build_metrics (analysis : List (String × JVal)) : Except String (List (String × ℚ)) := do
  let tasks := as_dict (dget analysis "tasks")
  let cost := as_dict (dget analysis "cost")
  let by_source := as_dict (dget cost "by_source")
  let health := as_dict (dget analysis "health")
  let auto := as_dict (dget analysis "autonomous")
  let skills := as_dict (dget analysis "skills")
  let top_skill := (as_list (dget skills "top_used")).headD (JVal.obj [])
  let asked := max (← safe_int (dget tasks "asked") 0) 1
  let heartbeat_usd := safe_float (dget (as_dict (dget by_source "heartbeats")) "usd") 0
  let self_usd := safe_float (dget (as_dict (dget by_source "self_initiated")) "usd") 0
  let total_usd := max (safe_float (dget cost "total_usd") 0) (1 / 10000)
  let _auto_total := max (← safe_int (dget auto "total_actions") 0) 1
  let three_am_total := max (← safe_int (dget auto "three_am_sessions") 0) 1
  -- the dict entry `three_am_sessions` repeats the `safe_int` call of the
  -- let-binding above; being deterministic it is evaluated once here
  let three_am_i ← safe_int (dget auto "three_am_sessions") 0
  let auto_total := _auto_total
  let e := safe_float (dget health "error_rate") 0
  pure
    [("heartbeat_cost_pct", safe_float (dget (as_dict (dget by_source "heartbeats")) "pct") 0),
     ("unused_skills_count", ((as_list (dget skills "unused")).length : ℚ)),
     ("three_am_sessions", (three_am_i : ℚ)),
     ("three_am_useful_rate", safe_float (dget auto "three_am_useful") 0 / (three_am_total : ℚ)),
     ("error_rate", if e != 0 then e else safe_float (dget health "errors_total") 0 / (asked : ℚ)),
     ("cost_per_task", safe_float (dget cost "per_completed_task_usd") 0),
     ("read_write_ratio", safe_float (dget health "read_write_ratio") 0),
     ("context_overflows", safe_float (dget health "context_overflows") 0),
     ("top_skill_pct", safe_float (dget (as_dict top_skill) "pct_of_total") 0),
     ("self_initiated_cost_pct", self_usd / total_usd * 100),
     ("autonomous_useful_rate", safe_float (dget auto "useful_count") 0 / (auto_total : ℚ)),
     ("tool_failures", safe_float (dget health "tool_failures") 0),
     ("heartbeat_cost_usd", heartbeat_usd),
     ("total_cost_usd", total_usd)]

/-! ### Placeholder builder (`placeholder_values`, lines 355-464)

The Python dict maps token names to heterogeneous objects that are later
passed through `str()` (by `fill_template` and by the `requires` check of
`choose_manager_note`); the embedding applies `pyStr` at construction for the
two entries the source stores unconverted (`autonomous_notable_desc`,
`skill_name`), which commutes with every use site. -/

/-- `(analysis.get("rating") or {})` -/
def orEmptyDict (v : JVal) : JVal :=
  if pyTruthy v then v else .obj []

/-- `v.get(k)` as an expression: requires a dict, else `AttributeError`. -/
def pyGetE (v : JVal) (k : String) : Except String JVal := do
  pure (dget (← asDictE v) k)

/-- `v.get(k, dflt)` as an expression: requires a dict, else `AttributeError`. -/
def pyGetDE (v : JVal) (k : String) (dflt : JVal) : Except String JVal := do
  pure (dgetD (← asDictE v) k dflt)

def placeholder_values (analysis : List (String × JVal)) :
    Except String (List (String × String)) := do
  let tasks := as_dict (dget analysis "tasks")
  let cost := as_dict (dget analysis "cost")
  let by_source := as_dict (dget cost "by_source")
  let health := as_dict (dget analysis "health")
  let auto := as_dict (dget analysis "autonomous")
  let skills := as_dict (dget analysis "skills")
  let top_skill := (as_list (dget skills "top_used")).headD
    (JVal.obj [("name", .str "github"), ("calls", .num (.int 0)), ("pct_of_total", .num (.int 0))])
  let three_am_sessions ← safe_int (dget auto "three_am_sessions") 0
  let three_am_useful ← safe_int (dget auto "three_am_useful") 0
  let completion := safe_float (dget tasks "completion_rate") 0
  let completed ← safe_int (dget tasks "completed") 0
  let asked := max (← safe_int (dget tasks "asked") 0) 1
  let total_cost := safe_float (dget cost "total_usd") 0
  let heartbeat := safe_float (dget (as_dict (dget by_source "heartbeats")) "usd") 0
  let self_usd := safe_float (dget (as_dict (dget by_source "self_initiated")) "usd") 0
  let error_rate0 := safe_float (dget health "error_rate") 0
  let error_rate :=
    if error_rate0 ≤ 0 then safe_float (dget health "errors_total") 0 / (asked : ℚ) else error_rate0
  let unused := as_list (dget skills "unused")
  let reduction_pct : ℤ :=
    if total_cost > 0 then roundHalfEven (heartbeat / total_cost * 35) else 0
  let estimated_savings := max 2 (heartbeat * (35 / 100))
  let overnight_cost := heartbeat * (22 / 100)
  let token_savings : ℤ := max 80 ((unused.length : ℤ) * 42)
  let cost_per_task := safe_float (dget cost "per_completed_task_usd") 0
  let prev0 ← pyGetE (orEmptyDict (dget analysis "rating")) "previous_task_completion_rate"
  let prev :=
    if isNull prev0 then
      match (as_list (dget tasks "trend")).getLast? with
      | some lastv =>
        JVal.num (.float (.val (safe_float (dget (as_dict lastv) "value") 0 / 100)))
      | none => JVal.null
    else prev0
  let prev_completion_pct ←
    if isNumVal prev then do
      pure (toString (← pyRoundE (pfMul100 (floatOfJ prev))))
    else pure ""
  let completion_delta :=
    if isNumVal prev then fmtPF1 (pfRound1 (pfMul100 (pfSubFrom completion (floatOfJ prev))))
    else ""
  let read_calls : Option JVal :=
    let rc := dget health "read_calls"
    if isNumVal rc then some rc else none
  let write_calls : Option JVal :=
    let wc := dget health "write_calls"
    if isNumVal wc then some wc else none
  let hur := dget auto "heartbeat_useful_rate"
  let heartbeat_useful_pct :=
    if isNumVal hur then toString (roundHalfEven (safe_float hur 0 * 100)) else ""
  let risky_raw := dget auto "risky_count"
  let risky_count_str :=
    if isIntVal risky_raw then pyStr risky_raw
    else toString ((as_list (dget auto "notable")).filter
      (fun x => jvalEqStr (dget (as_dict x) "verdict") "risky")).length
  pure
    [("completed_tasks", toString completed),
     ("asked_tasks", toString asked),
     ("failed_tasks", toString (← safe_int (dget tasks "failed") 0)),
     ("in_progress_tasks", toString (← safe_int (dget tasks "in_progress") 0)),
     ("total_cost", fmtFixed 2 total_cost),
     ("cost_per_task", fmtFixed 2 cost_per_task),
     ("completion_rate", toString (roundHalfEven (completion * 100))),
     ("prev_completion", prev_completion_pct),
     ("heartbeat_pct",
       toString (← safe_int (dget (as_dict (dget by_source "heartbeats")) "pct") 0)),
     ("heartbeat_cost", fmtFixed 2 heartbeat),
     ("heartbeat_useful_pct", heartbeat_useful_pct),
     ("errors_total", toString (← safe_int (dget health "errors_total") 0)),
     ("errors_fixed", ""),
     ("autonomous_notable_desc",
       pyStr (dgetD (as_dict ((as_list (dget auto "notable")).headD
         (JVal.obj [("summary", .str "status checks")]))) "summary" (.str "status checks"))),
     ("autonomous_actions", toString (← safe_int (dget auto "total_actions") 0)),
     ("autonomous_useful_pct",
       toString (roundHalfEven (safe_float (dget auto "useful_rate") 0 * 100))),
     ("errors_self_caused", toString (← safe_int (dget health "errors_self_caused") 0)),
     ("read_write_ratio", toString (← safe_int (dget health "read_write_ratio") 0)),
     ("reads_total", ← match read_calls with
       | some rc => do pure (toString (← pyIntE (floatOfJ rc)))
       | none => pure ""),
     ("writes_total", ← match write_calls with
       | some wc => do pure (toString (← pyIntE (floatOfJ wc)))
       | none => pure ""),
     ("context_overflows", toString (← safe_int (dget health "context_overflows") 0)),
     ("tool_calls_total", toString (← safe_int (dget auto "total_actions") 0)),
     ("risky_actions", risky_count_str),
     ("rating_title",
       pyStr (dgetD (as_dict (dget analysis "rating")) "title" (.str "Unpaid Intern"))),
     ("percentile",
       toString (← safe_int (dget (as_dict (dget analysis "rating")) "percentile") 50)),
     ("previous_rating", ← do
       let inner ← pyGetDE (orEmptyDict (dget analysis "rating")) "title" (.str "Unpaid Intern")
       pure (pyStr (← pyGetDE (orEmptyDict (dget analysis "rating")) "previous_title" inner))),
     ("self_initiated_cost", fmtFixed 2 self_usd),
     ("self_initiated_count",
       toString (← safe_int (dget (as_dict (dget by_source "self_initiated")) "count") 0)),
     ("avg_response_seconds", fmtFixed 1 (safe_float (dget health "avg_response_seconds") 0)),
     ("completion_delta", completion_delta),
     ("three_am_sessions", toString three_am_sessions),
     ("three_am_useful", toString three_am_useful),
     ("skills_used", toString (← safe_int (dget skills "used") 0)),
     ("skills_installed", toString (← safe_int (dget skills "installed") 0)),
     ("tool_failures", toString (← safe_int (dget health "tool_failures") 0)),
     ("compactions", toString (← safe_int (dget health "compactions") 0)),
     ("recommendation_summary", "tighten cost controls and reduce low-yield autonomous cycles"),
     ("cheapest_model", "anthropic/claude-haiku-4-5"),
     ("cheaper_model", "anthropic/claude-haiku-4-5"),
     ("estimated_savings", fmtFixed 2 estimated_savings),
     ("reduction_pct", toString (max 10 reduction_pct)),
     ("unused_count", toString unused.length),
     ("unused_names_short",
       ← if unused.isEmpty then pure "none" else pyJoin ", " (unused.take 4)),
     ("skill_name", pyStr (unused.headD (.str "example-skill"))),
     ("token_savings", toString token_savings),
     ("error_rate_pct", fmtFixed 1 (error_rate * 100)),
     ("overnight_cost", fmtFixed 2 overnight_cost),
     ("suggested_threshold", "120000"),
     ("suggested_confidence", "0.75"),
     ("top_skill_name", pyStr (dgetD (as_dict top_skill) "name" (.str "github"))),
     ("top_skill_pct", toString (← safe_int (dget (as_dict top_skill) "pct_of_total") 0))]

/-! ### Template renderer (`fill_template`, lines 577-581) and the final
substitution pass of `choose_manager_note` (line 618) -/

/-- Does `p` start the list `s`? -/
def listStartsWith : List Char → List Char → Bool
  | [], _ => true
  | _ :: _, [] => false
  | a :: as, b :: bs => a = b && listStartsWith as bs

/-- One scan step of Python's `str.replace(pat, rep)`: leftmost,
non-overlapping, left to right.  Fuelled; each recursive call consumes at
least one character when `pat` is nonempty, so `s.length + 1` suffices. -/
def replaceAllGo (pat rep : List Char) : ℕ → List Char → List Char
  | 0, s => s
  | _ + 1, [] => []
  | f + 1, c :: rest =>
    if listStartsWith pat (c :: rest) then
      rep ++ replaceAllGo pat rep f ((c :: rest).drop pat.length)
    else c :: replaceAllGo pat rep f rest

/-- `s.replace(pat, rep)` (the empty-pattern case is never exercised: every
pattern used is of the shape `"{" + token + "}"`). -/
def replaceAll (pat rep s : List Char) : List Char :=
  if pat.isEmpty then s else replaceAllGo pat rep (s.length + 1) s

/-- The pattern `"{" + k + "}"` built by the `fill_template` loop. -/
def bracePat (k : List Char) : List Char := openBrace :: (k ++ [closeBrace])

/-- The loop body of `fill_template` over a token/value association list. -/
def fill_core (data : List (List Char × List Char)) (t : List Char) : List Char :=
  data.foldl (fun out kv => replaceAll (bracePat kv.1) kv.2 out) t

/-- `fill_template` from lines 577-581: successive `str.replace` of
`{token}` by the value, in map order; unmatched tokens are left untouched. -/
def fill_template (template : String) (data : List (String × String)) : String :=
  String.mk (fill_core (data.map (fun kv => (kv.1.toList, kv.2.toList))) template.toList)

/-- `re.sub(r"\{[a-zA-Z0-9_]+\}", "n/a", rendered)` from line 618.  Fuelled
left-to-right scan; the pattern's greedy `+` cannot backtrack usefully since
`}` is not a token character. -/
def subUnresolvedGo : ℕ → List Char → List Char
  | 0, s => s
  | _ + 1, [] => []
  | f + 1, c :: rest =>
    if c = openBrace && !(rest.takeWhile isTokenChar).isEmpty
        && (rest.dropWhile isTokenChar).head? == some closeBrace then
      'n' :: '/' :: 'a' :: subUnresolvedGo f (rest.dropWhile isTokenChar).tail
    else c :: subUnresolvedGo f rest

def subUnresolved (s : List Char) : List Char :=
  subUnresolvedGo (s.length + 1) s

/-- The rendering step of `choose_manager_note` (lines 617-618): fill the
chosen template from the placeholder map, then replace every still-unresolved
`{token}` occurrence with the literal `n/a`.  (The choice of template — roast
file, `requires` filter, seeded RNG — is upstream of this renderer and out of
the engine's scope; the renderer is modelled for an arbitrary template.) -/
def render_manager_note (template : String) (values : List (String × String)) : String :=
  String.mk (subUnresolved (fill_template template values).toList)

/-! ### Recommendation selector (`generate_recommendations`, lines 467-574) -/

/-- An output recommendation.  `config_change` is an `Option` because the
fallback-chain records are built without that key while catalog records and
the generic record carry it. -/
structure Rec where
  category : String
  text : String
  impact : String
  config_change : Option String
deriving DecidableEq

/-- The state of the external rule-catalog resource
(`references/recommendations.json`). -/
inductive CatalogFile where
  | missing
  | unparsable
  | parsed (root : List (String × JVal))

/-- The sort key of line 484: `safe_int(as_dict(p).get("priority"), 99)`. -/
def patternKey (p : JVal) : Except String ℤ :=
  safe_int (dget (as_dict p) "priority") 99

/-- `sorted` computes every key eagerly (decorate-sort-undecorate), in list
order, before comparing. -/
def patternKeys : List JVal → Except String (List (ℤ × JVal))
  | [] => .ok []
  | p :: rest => do
    let k ← patternKey p
    pure ((k, p) :: (← patternKeys rest))

/-- Stable insertion: `x` goes after every element of equal key.  Folding
from the left yields exactly Python's stable ascending sort. -/
def insertStable (x : ℤ × JVal) : List (ℤ × JVal) → List (ℤ × JVal)
  | [] => [x]
  | y :: ys => if y.1 ≤ x.1 then y :: insertStable x ys else x :: y :: ys

def stableSortKeyed (l : List (ℤ × JVal)) : List (ℤ × JVal) :=
  l.foldl (fun acc x => insertStable x acc) []

/-- `str(pattern.get("config_change") or "")` of line 494. -/
def configChangeStr (pd : List (String × JVal)) : String :=
  let v := dget pd "config_change"
  if pyTruthy v then pyStr v else ""

/-- The record appended by the catalog loop (lines 487-496). -/
def patternRec (pd : List (String × JVal)) (values : List (String × String)) : Rec :=
  { category := pyStr (dgetD pd "category" (.str "EFFICIENCY"))
    text := fill_template (pyStr (dgetD pd "template" (.str ""))) values
    impact := fill_template (pyStr (dgetD pd "impact" (.str ""))) values
    config_change := some (configChangeStr pd) }

/-- The catalog loop over the sorted patterns (lines 484-496): `pattern.get`
demands a dict (`AttributeError` otherwise); a failed condition skips the
pattern. -/
def runPatterns (values : List (String × String)) (metrics : List (String × ℚ)) :
    List (ℤ × JVal) → Except String (List Rec)
  | [] => .ok []
  | (_, p) :: rest => do
    let pd ← asDictE p
    if evaluate_condition (pyStr (dgetD pd "condition" (.str ""))) metrics then
      pure (patternRec pd values :: (← runPatterns values metrics rest))
    else
      runPatterns values metrics rest

/-- The guarded catalog evaluation (lines 482-496 inside `try`): fetch
`patterns` (default `[]`), sort by priority, run the loop.  A non-list value
for `patterns` raises unless it is an empty container (iterating an empty
dict or empty string yields nothing); iterating a nonempty string or dict
yields non-dict elements whose `.get` raises. -/
def catalogTry (root : List (String × JVal)) (values : List (String × String))
    (metrics : List (String × ℚ)) : Except String (List Rec) :=
  match dgetD root "patterns" (JVal.arr []) with
  | .arr ps => do
    runPatterns values metrics (stableSortKeyed (← patternKeys ps))
  | .str s => if s = "" then .ok [] else .error "AttributeError"
  | .obj kvs => if kvs.isEmpty then .ok [] else .error "AttributeError"
  | _ => .error "TypeError"

/-- Lines 481-499: a missing file skips the catalog entirely; `load_json`
failures and every exception inside the loop are caught and reset `recs` to
the empty list. -/
def catalogBranch (catalog : CatalogFile) (values : List (String × String))
    (metrics : List (String × ℚ)) : List Rec :=
  match catalog with
  | .missing => []
  | .unparsable => []
  | .parsed root =>
    match catalogTry root values metrics with
    | .ok rs => rs
    | .error _ => []

/-- `values.get("heartbeat_pct")` read back from the placeholder map. -/
def vget (values : List (String × String)) (k : String) : JVal :=
  match values.lookup k with
  | some s => .str s
  | none => .null

def hbRec (heartbeat_usd : ℚ) : Rec :=
  { category := "COST"
    text := "Switch heartbeat model to a cheaper default and limit overnight windows"
    impact := "Expected savings: $" ++ fmtMoney (heartbeat_usd * (35 / 100)) ++ "/week"
    config_change := none }

def cleanupRec (names : String) : Rec :=
  { category := "CLEANUP"
    text := "Disable unused skills (" ++ names ++ ") to reduce prompt overhead"
    impact := "Reduces token load per session and lowers latency"
    config_change := none }

def errRec (error_rate : ℚ) : Rec :=
  { category := "RELIABILITY"
    text := "Add guardrails for recurring failing task types and increase validation before writes"
    impact := "Current error rate: " ++ fmtFixed 1 (error_rate * 100) ++ "%"
    config_change := none }

def ratioRec (r : ℤ) : Rec :=
  { category := "EFFICIENCY"
    text := "Restructure MEMORY.md to reduce repetitive read-heavy tool chains"
    impact := "Read/write ratio currently " ++ toString r ++ ":1"
    config_change := none }

def overflowRec (raw : String) : Rec :=
  { category := "RELIABILITY"
    text := "Increase compaction threshold and trim oversized memory sections"
    impact := "Observed overflows: " ++ raw
    config_change := none }

def threeAmRec : Rec :=
  { category := "EFFICIENCY"
    text := "Restrict autonomous runtime hours to 08:00-24:00"
    impact := "Cuts low-value overnight activity"
    config_change := none }

def genericRec : Rec :=
  { category := "EFFICIENCY"
    text := "Keep current configuration and monitor weekly trend movement"
    impact := "No major regressions detected"
    config_change := some "" }

/-- Fallback step, lines 504-513 (heartbeat cost share). -/
def fb_heartbeat (values : List (String × String)) (by_source : List (String × JVal))
    (recs : List Rec) : List Rec :=
  let heartbeat_pct := safe_float (vget values "heartbeat_pct") 0
  let heartbeat_usd := safe_float (dget (as_dict (dget by_source "heartbeats")) "usd") 0
  if heartbeat_pct > 30 then recs ++ [hbRec heartbeat_usd] else recs

/-- Fallback step, lines 515-523 (unused skills; the raw `join` of line 516
can raise exactly like the one in `placeholder_values`). -/
def fb_cleanup (skills : List (String × JVal)) (recs : List Rec) :
    Except String (List Rec) :=
  if (as_list (dget skills "unused")).length > 3 then do
    let names ← pyJoin ", " ((as_list (dget skills "unused")).take 4)
    pure (recs ++ [cleanupRec names])
  else pure recs

/-- Fallback step, lines 525-534 (error rate; `or` picks the quotient when
`safe_float(health.get("error_rate"))` is falsy, i.e. zero). -/
def fb_error_rate (tasks health : List (String × JVal)) (recs : List Rec) :
    Except String (List Rec) := do
  let asked := max (← safe_int (dget tasks "asked") 0) 1
  let e := safe_float (dget health "error_rate") 0
  let error_rate := if e != 0 then e else safe_float (dget health "errors_total") 0 / (asked : ℚ)
  if error_rate > 1 / 10 then pure (recs ++ [errRec error_rate]) else pure recs

/-- Fallback step, lines 536-544 (read/write ratio). -/
def fb_rw (health : List (String × JVal)) (recs : List Rec) :
    Except String (List Rec) := do
  let r ← safe_int (dget health "read_write_ratio") 0
  if r > 50 then pure (recs ++ [ratioRec r]) else pure recs

/-- Fallback step, lines 546-553 (context overflows; the impact interpolates
the raw `health.get('context_overflows', 0)` value through `str`). -/
def fb_overflow (health : List (String × JVal)) (recs : List Rec) :
    Except String (List Rec) := do
  if (← safe_int (dget health "context_overflows") 0) > 0 then
    pure (recs ++ [overflowRec (pyStr (dgetD health "context_overflows" (.num (.int 0))))])
  else pure recs

/-- Fallback step, lines 555-562 (three-AM sessions; note `safe_float`). -/
def fb_three_am (auto : List (String × JVal)) (recs : List Rec) : List Rec :=
  if safe_float (dget auto "three_am_sessions") 0 > 2 then recs ++ [threeAmRec] else recs

/-- Lines 564-572: the generic recommendation when nothing triggered. -/
def fb_generic (recs : List Rec) : List Rec :=
  if recs.isEmpty then recs ++ [genericRec] else recs

/-- `generate_recommendations` from lines 467-574, with the catalog resource
state as an explicit parameter. -/
def generate_recommendations (catalog : CatalogFile) (analysis : List (String × JVal)) :
    Except String (List Rec) := do
  let tasks := as_dict (dget analysis "tasks")
  let cost := as_dict (dget analysis "cost")
  let by_source := as_dict (dget cost "by_source")
  let health := as_dict (dget analysis "health")
  let auto := as_dict (dget analysis "autonomous")
  let skills := as_dict (dget analysis "skills")
  let values ← placeholder_values analysis
  let metrics ← build_metrics analysis
  let recs := catalogBranch catalog values metrics
  if !recs.isEmpty then
    pure (recs.take 3)
  else do
    let r1 := fb_heartbeat values by_source recs
    let r2 ← fb_cleanup skills r1
    let r3 ← fb_error_rate tasks health r2
    let r4 ← fb_rw health r3
    let r5 ← fb_overflow health r4
    let r6 := fb_three_am auto r5
    pure ((fb_generic r6).take 3)

/-! ### Claim theorems -/

/-- A clause (an AND part of a condition) holds when every one of its
stripped atomic terms parses and its comparison is true. -/
def clauseHolds (metrics : List (String × ℚ)) (clause : List Char) : Prop :=
  ∀ expr ∈ (pySplitSep ['A', 'N', 'D'] clause).map pyStrip,
    ∃ a : String × CmpOp × ℚ,
      parseAtom expr = some a ∧ cmpQ a.2.1 (metricsGet metrics a.1) a.2.2 = true

theorem eval_clause_iff (metrics : List (String × ℚ)) (clause : List Char) :
    eval_clause metrics clause = true ↔ clauseHolds metrics clause := by
  unfold eval_clause clauseHolds
  rw [List.all_eq_true]
  constructor
  · intro h expr he
    have h2 := h expr he
    cases hp : parseAtom expr with
    | none => rw [hp] at h2; exact absurd h2 (by simp)
    | some a =>
      refine ⟨a, rfl, ?_⟩
      obtain ⟨k, op, q⟩ := a
      rw [hp] at h2
      exact h2
  · intro h expr he
    obtain ⟨a, hp, hc⟩ := h expr he
    obtain ⟨k, op, q⟩ := a
    rw [hp]
    exact hc

/-- C3: the condition evaluator computes an OR of AND-clauses — the whole
condition is true iff some stripped OR-part is a clause all of whose stripped
atomic comparisons are true — and on the spec's truth table
`"a>5 AND b<2 OR c==3"` is true under `{a:6,b:1,c:0}` (via the first clause),
true under `{a:1,b:1,c:3}` (via the second clause), and false under
`{a:1,b:1,c:0}`. -/
theorem c3_condition_or_of_ands :
    (∀ (condition : String) (metrics : List (String × ℚ)),
        evaluate_condition condition metrics = true ↔
          pyStrip condition.toList ≠ [] ∧
            ∃ clause ∈ (pySplitSep ['O', 'R'] (pyStrip condition.toList)).map pyStrip,
              clauseHolds metrics clause)
    ∧ evaluate_condition "a>5 AND b<2 OR c==3" [("a", 6), ("b", 1), ("c", 0)] = true
    ∧ eval_clause [("a", 6), ("b", 1), ("c", 0)] "a>5 AND b<2".toList = true
    ∧ evaluate_condition "a>5 AND b<2 OR c==3" [("a", 1), ("b", 1), ("c", 3)] = true
    ∧ eval_clause [("a", 1), ("b", 1), ("c", 3)] "c==3".toList = true
    ∧ evaluate_condition "a>5 AND b<2 OR c==3" [("a", 1), ("b", 1), ("c", 0)] = false := by
  refine ⟨?_, by decide, by decide, by decide, by decide, by decide⟩
  intro condition metrics
  have hL : evaluate_condition condition metrics =
      (if (pyStrip condition.toList).isEmpty then false
       else ((pySplitSep ['O', 'R'] (pyStrip condition.toList)).map pyStrip).any
         (eval_clause metrics)) := rfl
  rw [hL]
  cases hEmpty : (pyStrip condition.toList).isEmpty with
  | true =>
    have hnil : pyStrip condition.toList = [] := List.isEmpty_iff.mp hEmpty
    rw [if_pos rfl]
    constructor
    · intro hh; cases hh
    · rintro ⟨hne, -⟩; exact absurd hnil hne
  | false =>
    have hne : pyStrip condition.toList ≠ [] := by
      intro hnil; rw [hnil] at hEmpty; cases hEmpty
    rw [if_neg (by simp)]
    rw [List.any_eq_true]
    constructor
    · rintro ⟨cl, hcl, he⟩
      exact ⟨hne, cl, hcl, (eval_clause_iff metrics cl).mp he⟩
    · rintro ⟨-, cl, hcl, hh⟩
      exact ⟨cl, hcl, (eval_clause_iff metrics cl).mpr hh⟩

/-- C4: graceful degradation of the condition evaluator — a term whose
metric name is absent from the map is compared against the value `0.0`
(`"ghost>1"` is false, `"ghost<=0"` is true, whatever else the map holds); a
term that fails to parse makes its whole containing clause false; an empty or
whitespace-only condition evaluates to false. -/
theorem c4_condition_degrades :
    (∀ metrics : List (String × ℚ), metrics.lookup "ghost" = none →
        evaluate_condition "ghost>1" metrics = false ∧
          evaluate_condition "ghost<=0" metrics = true)
    ∧ (∀ (metrics : List (String × ℚ)) (clause : List Char),
        (∃ expr ∈ (pySplitSep ['A', 'N', 'D'] clause).map pyStrip, parseAtom expr = none) →
          eval_clause metrics clause = false)
    ∧ (∀ (metrics : List (String × ℚ)) (condition : String),
        pyStrip condition.toList = [] → evaluate_condition condition metrics = false)
    ∧ (∀ metrics : List (String × ℚ),
        evaluate_condition "" metrics = false ∧ evaluate_condition "   " metrics = false) := by
  refine ⟨?_, ?_, ?_, ?_⟩
  · intro metrics h
    constructor
    · show ((cmpQ .gt (metricsGet metrics "ghost") 1 && true) || false) = false
      simp [metricsGet, h, cmpQ]
    · show ((cmpQ .le (metricsGet metrics "ghost") 0 && true) || false) = true
      simp [metricsGet, h, cmpQ]
  · intro metrics clause ⟨expr, he, hp⟩
    unfold eval_clause
    rw [List.all_eq_false]
    exact ⟨expr, he, by simp [hp]⟩
  · intro metrics condition h
    have hL : evaluate_condition condition metrics =
        (if (pyStrip condition.toList).isEmpty then false
         else ((pySplitSep ['O', 'R'] (pyStrip condition.toList)).map pyStrip).any
           (eval_clause metrics)) := rfl
    rw [hL, h]
    rfl
  · intro metrics
    exact ⟨rfl, rfl⟩

theorem c4_condition_degrades_witness :
    ([("a", (5 : ℚ))].lookup "ghost" = none) ∧
      (evaluate_condition "ghost>1" [("a", 5)] = false ∧
        evaluate_condition "ghost<=0" [("a", 5)] = true) :=
  ⟨by decide, c4_condition_degrades.1 [("a", 5)] (by decide)⟩

/-- The analysis document `{"autonomous": {"three_am_sessions": 1e400}}`:
`json.load` turns the in-range JSON literal `1e400` into the float `inf`. -/
def overflowDoc : List (String × JVal) :=
  [("autonomous", JVal.obj [("three_am_sessions", JVal.num (.float .inf))])]

/-- C8: the claim matches the spec (`build_metrics` never raises and every
metric is finite, non-finite inputs being replaced by defaults), but the code
slips: `safe_int` catches only `TypeError`/`ValueError` while `int(float(v))`
on an infinite value raises `OverflowError`, so `build_metrics` propagates an
exception on `{"autonomous": {"three_am_sessions": 1e400}}` instead of
defaulting — in contrast to `safe_float`, which explicitly defaults every
non-finite value. -/
theorem c8_build_metrics_overflow_bug :
    build_metrics overflowDoc = .error infIntErr
      ∧ safe_int (JVal.num (.float .inf)) 0 = .error infIntErr
      ∧ safe_float (JVal.num (.float .inf)) 0 = 0
      ∧ safe_int (JVal.num (.float .nan)) 0 = .ok 0 :=
  ⟨by decide, by decide, by decide, by decide⟩

/-- The analysis document `{"skills": {"unused": [1]}}`. -/
def badUnusedDoc : List (String × JVal) :=
  [("skills", JVal.obj [("unused", JVal.arr [JVal.num (.int 1)])])]

/-- C2: the claim matches the spec ("never fails, always returns a usable
recommendation list"), but the code slips: `placeholder_values` runs
`", ".join(unused[:4])` on the raw `skills.unused` elements, which raises
`TypeError` on any non-string element, and `generate_recommendations` calls
`placeholder_values` before its try/except, so the exception propagates out
of recommendation selection.  (The rendering code at line 922 joins the same
list with every element wrapped in `safe_text`, showing the intended
pattern.) -/
theorem c2_selection_raises_bug :
    generate_recommendations .missing badUnusedDoc = .error joinErr
      ∧ placeholder_values badUnusedDoc = .error joinErr :=
  ⟨by decide, by decide⟩

def bananaCatalog : CatalogFile :=
  .parsed [("patterns", JVal.arr
    [JVal.obj [("condition", .str "x>=0"), ("category", .str "BANANA")]])]

/-- C7, counterexample: a loaded rule whose `category` is the unknown value
`"BANANA"` (and whose condition `x>=0` always matches) produces a
recommendation whose category is `"BANANA"` — not one of COST, EFFICIENCY,
CLEANUP, RELIABILITY — because `pattern.get("category", "EFFICIENCY")`
defaults only when the key is absent. -/
theorem c7_unknown_category_counterexample :
    (generate_recommendations bananaCatalog []).map (List.map Rec.category) = .ok ["BANANA"]
      ∧ ("BANANA" ∈ ["COST", "EFFICIENCY", "CLEANUP", "RELIABILITY"]) = False :=
  ⟨by decide, by simp⟩

/-- C7, amended: the category of a catalog-derived recommendation defaults to
EFFICIENCY exactly when the rule's `category` key is absent; a present string
value — known enum member or not — is passed through verbatim. -/
theorem c7_category_default_amended :
    ∀ (pd : List (String × JVal)) (values : List (String × String)),
      (pd.lookup "category" = none → (patternRec pd values).category = "EFFICIENCY")
        ∧ (∀ s, pd.lookup "category" = some (JVal.str s) →
            (patternRec pd values).category = s) := by
  intro pd values
  constructor
  · intro h
    show pyStr (dgetD pd "category" (.str "EFFICIENCY")) = "EFFICIENCY"
    rw [dgetD, h]
    rfl
  · intro s h
    show pyStr (dgetD pd "category" (.str "EFFICIENCY")) = s
    rw [dgetD, h]
    rfl

theorem c7_category_default_amended_witness :
    (([] : List (String × JVal)).lookup "category" = none
        ∧ (patternRec [] []).category = "EFFICIENCY")
      ∧ ([("category", JVal.str "BANANA")].lookup "category" = some (JVal.str "BANANA")
        ∧ (patternRec [("category", JVal.str "BANANA")] []).category = "BANANA") :=
  ⟨⟨rfl, (c7_category_default_amended [] []).1 rfl⟩,
   ⟨rfl, (c7_category_default_amended [("category", JVal.str "BANANA")] []).2 "BANANA" rfl⟩⟩

/-! ### Structure lemmas for the selector -/

@[simp] theorem ok_bind {α β : Type} (a : α) (f : α → Except String β) :
    (Except.ok a >>= f) = f a := rfl

@[simp] theorem error_bind {α β : Type} (e : String) (f : α → Except String β) :
    ((Except.error e : Except String α) >>= f) = Except.error e := rfl

@[simp] theorem pure_eq_ok {α : Type} (a : α) : (pure a : Except String α) = Except.ok a := rfl

theorem fb_generic_ne_nil (l : List Rec) : fb_generic l ≠ [] := by
  unfold fb_generic
  by_cases h : l.isEmpty
  · rw [if_pos h]; simp
  · rw [if_neg h]; simpa [List.isEmpty_iff] using h

theorem fb_heartbeat_shape (values : List (String × String)) (by_source : List (String × JVal))
    (recs : List Rec) :
    fb_heartbeat values by_source recs = recs ∨
      ∃ u, fb_heartbeat values by_source recs = recs ++ [hbRec u] := by
  simp only [fb_heartbeat]
  split
  · exact Or.inr ⟨_, rfl⟩
  · exact Or.inl rfl

theorem fb_cleanup_shape {skills : List (String × JVal)} {recs l : List Rec}
    (h : fb_cleanup skills recs = .ok l) :
    l = recs ∨ ∃ s, l = recs ++ [cleanupRec s] := by
  unfold fb_cleanup at h
  split at h
  · cases hj : pyJoin ", " ((as_list (dget skills "unused")).take 4) with
    | error e => rw [hj] at h; simp at h
    | ok s =>
      rw [hj] at h
      simp at h
      exact Or.inr ⟨s, h.symm⟩
  · simp at h
    exact Or.inl h.symm

theorem fb_error_rate_shape {tasks health : List (String × JVal)} {recs l : List Rec}
    (h : fb_error_rate tasks health recs = .ok l) :
    l = recs ∨ ∃ q, l = recs ++ [errRec q] := by
  unfold fb_error_rate at h
  cases ha : safe_int (dget tasks "asked") 0 with
  | error e => rw [ha] at h; simp at h
  | ok a =>
    rw [ha] at h
    simp only [ok_bind] at h
    split at h <;> split at h <;> simp at h <;>
      first
        | exact Or.inr ⟨_, h.symm⟩
        | exact Or.inr ⟨_, h⟩
        | exact Or.inl h.symm

theorem fb_rw_shape {health : List (String × JVal)} {recs l : List Rec}
    (h : fb_rw health recs = .ok l) :
    l = recs ∨ ∃ n, l = recs ++ [ratioRec n] := by
  unfold fb_rw at h
  cases ha : safe_int (dget health "read_write_ratio") 0 with
  | error e => rw [ha] at h; simp at h
  | ok a =>
    rw [ha] at h
    simp only [ok_bind] at h
    split at h
    · simp at h; exact Or.inr ⟨_, h.symm⟩
    · simp at h; exact Or.inl h.symm

theorem fb_overflow_shape {health : List (String × JVal)} {recs l : List Rec}
    (h : fb_overflow health recs = .ok l) :
    l = recs ∨ ∃ s, l = recs ++ [overflowRec s] := by
  unfold fb_overflow at h
  cases ha : safe_int (dget health "context_overflows") 0 with
  | error e => rw [ha] at h; simp at h
  | ok a =>
    rw [ha] at h
    simp only [ok_bind] at h
    split at h
    · simp at h; exact Or.inr ⟨_, h.symm⟩
    · simp at h; exact Or.inl h.symm

theorem fb_three_am_shape (auto : List (String × JVal)) (recs : List Rec) :
    fb_three_am auto recs = recs ∨ fb_three_am auto recs = recs ++ [threeAmRec] := by
  unfold fb_three_am
  split
  · exact Or.inr rfl
  · exact Or.inl rfl

/-- C1: whenever recommendation selection returns, it returns between 1 and 3
recommendations: the catalog branch and the fallback chain are both truncated
with `[:3]`, and the generic fallback guarantees the chain is nonempty. -/
theorem c1_length_bounds :
    ∀ (catalog : CatalogFile) (analysis : List (String × JVal)) (result : List Rec),
      generate_recommendations catalog analysis = .ok result →
        1 ≤ result.length ∧ result.length ≤ 3 := by
  intro catalog analysis result h
  unfold generate_recommendations at h
  cases hpv : placeholder_values analysis with
  | error e => rw [hpv] at h; simp at h
  | ok values =>
  rw [hpv] at h
  simp only [ok_bind] at h
  cases hbm : build_metrics analysis with
  | error e => rw [hbm] at h; simp at h
  | ok metrics =>
  rw [hbm] at h
  simp only [ok_bind] at h
  by_cases hc : (catalogBranch catalog values metrics).isEmpty
  · rw [if_neg (by simp [hc])] at h
    cases h2 : fb_cleanup (as_dict (dget analysis "skills"))
        (fb_heartbeat values (as_dict (dget (as_dict (dget analysis "cost")) "by_source"))
          (catalogBranch catalog values metrics)) with
    | error e => rw [h2] at h; simp at h
    | ok r2 =>
    rw [h2] at h
    simp only [ok_bind] at h
    cases h3 : fb_error_rate (as_dict (dget analysis "tasks"))
        (as_dict (dget analysis "health")) r2 with
    | error e => rw [h3] at h; simp at h
    | ok r3 =>
    rw [h3] at h
    simp only [ok_bind] at h
    cases h4 : fb_rw (as_dict (dget analysis "health")) r3 with
    | error e => rw [h4] at h; simp at h
    | ok r4 =>
    rw [h4] at h
    simp only [ok_bind] at h
    cases h5 : fb_overflow (as_dict (dget analysis "health")) r4 with
    | error e => rw [h5] at h; simp at h
    | ok r5 =>
    rw [h5] at h
    simp only [ok_bind] at h
    simp only [pure_eq_ok, Except.ok.injEq] at h
    have hne : fb_generic (fb_three_am (as_dict (dget analysis "autonomous")) r5) ≠ [] :=
      fb_generic_ne_nil _
    have hpos : 0 < (fb_generic (fb_three_am (as_dict (dget analysis "autonomous")) r5)).length :=
      List.length_pos.mpr hne
    rw [← h]
    rw [List.length_take]
    omega
  · rw [if_pos (by simp [hc])] at h
    simp only [pure_eq_ok, Except.ok.injEq] at h
    have hne : catalogBranch catalog values metrics ≠ [] := by
      simpa [List.isEmpty_iff] using hc
    have hpos : 0 < (catalogBranch catalog values metrics).length := List.length_pos.mpr hne
    rw [← h]
    rw [List.length_take]
    omega

theorem c1_length_bounds_witness :
    generate_recommendations .missing [] = .ok [genericRec]
      ∧ (1 ≤ [genericRec].length ∧ [genericRec].length ≤ 3) :=
  ⟨by decide, c1_length_bounds .missing [] [genericRec] (by decide)⟩

/-- The heartbeat spend cited by the first fallback (line 505):
`safe_float(as_dict(by_source.get("heartbeats")).get("usd"))`. -/
def hbUsdOf (analysis : List (String × JVal)) : ℚ :=
  safe_float
    (dget (as_dict (dget (as_dict (dget (as_dict (dget analysis "cost")) "by_source"))
      "heartbeats")) "usd") 0

/-- C6: when the catalog contributes nothing and the document's heartbeat
cost share exceeds 30 (as read back from the placeholder map), the first
returned recommendation is the heartbeat fallback: category COST, impact
citing 35% of the heartbeat spend (`heartbeat_usd * 0.35`) as expected weekly
savings. -/
theorem c6_heartbeat_fallback_first :
    ∀ (catalog : CatalogFile) (analysis : List (String × JVal))
      (values : List (String × String)) (metrics : List (String × ℚ)) (result : List Rec),
      placeholder_values analysis = .ok values →
      build_metrics analysis = .ok metrics →
      catalogBranch catalog values metrics = [] →
      safe_float (vget values "heartbeat_pct") 0 > 30 →
      generate_recommendations catalog analysis = .ok result →
      result.head? = some (hbRec (hbUsdOf analysis))
        ∧ (hbRec (hbUsdOf analysis)).category = "COST"
        ∧ (hbRec (hbUsdOf analysis)).impact =
            "Expected savings: $" ++ fmtMoney (hbUsdOf analysis * (35 / 100)) ++ "/week" := by
  intro catalog analysis values metrics result hpv hbm hcat hhb h
  refine ⟨?_, rfl, rfl⟩
  unfold generate_recommendations at h
  rw [hpv] at h
  simp only [ok_bind] at h
  rw [hbm] at h
  simp only [ok_bind] at h
  rw [hcat] at h
  rw [if_neg (by simp)] at h
  have h1 : fb_heartbeat values
      (as_dict (dget (as_dict (dget analysis "cost")) "by_source")) ([] : List Rec) =
      [hbRec (hbUsdOf analysis)] := by
    simp only [fb_heartbeat]
    rw [if_pos hhb]
    rfl
  rw [h1] at h
  cases h2 : fb_cleanup (as_dict (dget analysis "skills")) [hbRec (hbUsdOf analysis)] with
  | error e => rw [h2] at h; simp at h
  | ok r2 =>
  rw [h2] at h
  simp only [ok_bind] at h
  have e2 : ∃ t, r2 = hbRec (hbUsdOf analysis) :: t := by
    obtain he | ⟨s, he⟩ := fb_cleanup_shape h2
    · exact ⟨[], by simp [he]⟩
    · exact ⟨[cleanupRec s], by simp [he]⟩
  cases h3 : fb_error_rate (as_dict (dget analysis "tasks"))
      (as_dict (dget analysis "health")) r2 with
  | error e => rw [h3] at h; simp at h
  | ok r3 =>
  rw [h3] at h
  simp only [ok_bind] at h
  have e3 : ∃ t, r3 = hbRec (hbUsdOf analysis) :: t := by
    obtain ⟨t2, ht2⟩ := e2
    obtain he | ⟨q, he⟩ := fb_error_rate_shape h3
    · exact ⟨t2, by rw [he, ht2]⟩
    · exact ⟨t2 ++ [errRec q], by rw [he, ht2]; simp⟩
  cases h4 : fb_rw (as_dict (dget analysis "health")) r3 with
  | error e => rw [h4] at h; simp at h
  | ok r4 =>
  rw [h4] at h
  simp only [ok_bind] at h
  have e4 : ∃ t, r4 = hbRec (hbUsdOf analysis) :: t := by
    obtain ⟨t3, ht3⟩ := e3
    obtain he | ⟨n, he⟩ := fb_rw_shape h4
    · exact ⟨t3, by rw [he, ht3]⟩
    · exact ⟨t3 ++ [ratioRec n], by rw [he, ht3]; simp⟩
  cases h5 : fb_overflow (as_dict (dget analysis "health")) r4 with
  | error e => rw [h5] at h; simp at h
  | ok r5 =>
  rw [h5] at h
  simp only [ok_bind] at h
  have e5 : ∃ t, r5 = hbRec (hbUsdOf analysis) :: t := by
    obtain ⟨t4, ht4⟩ := e4
    obtain he | ⟨s, he⟩ := fb_overflow_shape h5
    · exact ⟨t4, by rw [he, ht4]⟩
    · exact ⟨t4 ++ [overflowRec s], by rw [he, ht4]; simp⟩
  have e6 : ∃ t, fb_three_am (as_dict (dget analysis "autonomous")) r5 =
      hbRec (hbUsdOf analysis) :: t := by
    obtain ⟨t5, ht5⟩ := e5
    obtain he | he := fb_three_am_shape (as_dict (dget analysis "autonomous")) r5
    · exact ⟨t5, by rw [he, ht5]⟩
    · exact ⟨t5 ++ [threeAmRec], by rw [he, ht5]; simp⟩
  obtain ⟨t6, ht6⟩ := e6
  rw [ht6] at h
  have hg : fb_generic (hbRec (hbUsdOf analysis) :: t6) = hbRec (hbUsdOf analysis) :: t6 := by
    simp [fb_generic]
  rw [hg] at h
  simp only [pure_eq_ok, Except.ok.injEq] at h
  rw [← h]
  rfl

def okD {α : Type} (e : Except String α) (d : α) : α :=
  match e with
  | .ok a => a
  | .error _ => d

/-- `{"cost": {"by_source": {"heartbeats": {"usd": 10, "pct": 40}}}}` -/
def hbDoc : List (String × JVal) :=
  [("cost", JVal.obj [("by_source", JVal.obj
    [("heartbeats", JVal.obj [("usd", .num (.int 10)), ("pct", .num (.int 40))])])])]

def hbDocValues : List (String × String) := okD (placeholder_values hbDoc) []
def hbDocMetrics : List (String × ℚ) := okD (build_metrics hbDoc) []
def hbDocResult : List Rec := okD (generate_recommendations .missing hbDoc) []

theorem c6_heartbeat_fallback_first_witness :
    (placeholder_values hbDoc = .ok hbDocValues
        ∧ build_metrics hbDoc = .ok hbDocMetrics
        ∧ catalogBranch .missing hbDocValues hbDocMetrics = []
        ∧ safe_float (vget hbDocValues "heartbeat_pct") 0 > 30
        ∧ generate_recommendations .missing hbDoc = .ok hbDocResult)
      ∧ (hbDocResult.head? = some (hbRec (hbUsdOf hbDoc))
        ∧ (hbRec (hbUsdOf hbDoc)).category = "COST"
        ∧ (hbRec (hbUsdOf hbDoc)).impact =
            "Expected savings: $" ++ fmtMoney (hbUsdOf hbDoc * (35 / 100)) ++ "/week") :=
  ⟨⟨by decide, by decide, rfl, by decide, by decide⟩,
   c6_heartbeat_fallback_first .missing hbDoc hbDocValues hbDocMetrics hbDocResult
     (by decide) (by decide) rfl (by decide) (by decide)⟩

/-- C5: catalog rules are processed in ascending priority order with a stable
tie-break — for any three rules with priorities `[5, 1, 5]` that all match,
the output lists the priority-1 rule first, then the first priority-5 rule,
then the second priority-5 rule.  (`patternKey` is `safe_int(priority, 99)`,
which yields the default 99 for an absent or unparseable priority.) -/
theorem c5_priority_stable_sort :
    ∀ (analysis : List (String × JVal)) (pA pB pC : JVal)
      (dA dB dC : List (String × JVal))
      (values : List (String × String)) (metrics : List (String × ℚ)),
      placeholder_values analysis = .ok values →
      build_metrics analysis = .ok metrics →
      pA = .obj dA → pB = .obj dB → pC = .obj dC →
      patternKey pA = .ok 5 → patternKey pB = .ok 1 → patternKey pC = .ok 5 →
      evaluate_condition (pyStr (dgetD dA "condition" (.str ""))) metrics = true →
      evaluate_condition (pyStr (dgetD dB "condition" (.str ""))) metrics = true →
      evaluate_condition (pyStr (dgetD dC "condition" (.str ""))) metrics = true →
      generate_recommendations (.parsed [("patterns", JVal.arr [pA, pB, pC])]) analysis
        = .ok [patternRec dB values, patternRec dA values, patternRec dC values] := by
  intro analysis pA pB pC dA dB dC values metrics hpv hbm hA hB hC kA kB kC cA cB cC
  subst hA; subst hB; subst hC
  have hkeys : patternKeys [JVal.obj dA, JVal.obj dB, JVal.obj dC]
      = .ok [(5, JVal.obj dA), (1, JVal.obj dB), (5, JVal.obj dC)] := by
    simp only [patternKeys, kA, kB, kC, ok_bind, pure_eq_ok]
  have hrun : runPatterns values metrics [(1, JVal.obj dB), (5, JVal.obj dA), (5, JVal.obj dC)]
      = .ok [patternRec dB values, patternRec dA values, patternRec dC values] := by
    simp [runPatterns, asDictE, cA, cB, cC]
  have hcat : catalogTry [("patterns", JVal.arr [JVal.obj dA, JVal.obj dB, JVal.obj dC])]
      values metrics
      = .ok [patternRec dB values, patternRec dA values, patternRec dC values] := by
    have hstep : catalogTry [("patterns", JVal.arr [JVal.obj dA, JVal.obj dB, JVal.obj dC])]
        values metrics
        = (patternKeys [JVal.obj dA, JVal.obj dB, JVal.obj dC] >>= fun ks =>
            runPatterns values metrics (stableSortKeyed ks)) := rfl
    rw [hstep, hkeys]
    simp only [ok_bind]
    have hsort : stableSortKeyed [(5, JVal.obj dA), (1, JVal.obj dB), (5, JVal.obj dC)]
        = [(1, JVal.obj dB), (5, JVal.obj dA), (5, JVal.obj dC)] := rfl
    rw [hsort, hrun]
  unfold generate_recommendations
  rw [hpv]
  simp only [ok_bind]
  rw [hbm]
  simp only [ok_bind]
  have hcb : catalogBranch
      (.parsed [("patterns", JVal.arr [JVal.obj dA, JVal.obj dB, JVal.obj dC])]) values metrics
      = [patternRec dB values, patternRec dA values, patternRec dC values] := by
    have hstep2 : catalogBranch
        (.parsed [("patterns", JVal.arr [JVal.obj dA, JVal.obj dB, JVal.obj dC])]) values metrics
        = (match catalogTry [("patterns", JVal.arr [JVal.obj dA, JVal.obj dB, JVal.obj dC])]
            values metrics with
          | .ok rs => rs
          | .error _ => []) := rfl
    rw [hstep2, hcat]
  rw [hcb]
  rw [if_pos (by simp)]
  rfl

def wpA : List (String × JVal) :=
  [("priority", .num (.int 5)), ("condition", .str "x>=0"), ("template", .str "A")]
def wpB : List (String × JVal) :=
  [("priority", .num (.int 1)), ("condition", .str "x>=0"), ("template", .str "B")]
def wpC : List (String × JVal) :=
  [("priority", .num (.int 5)), ("condition", .str "x>=0"), ("template", .str "C")]

def emptyDocValues : List (String × String) := okD (placeholder_values []) []
def emptyDocMetrics : List (String × ℚ) := okD (build_metrics []) []

theorem c5_priority_stable_sort_witness :
    (placeholder_values [] = .ok emptyDocValues
        ∧ build_metrics [] = .ok emptyDocMetrics
        ∧ patternKey (.obj wpA) = .ok 5
        ∧ patternKey (.obj wpB) = .ok 1
        ∧ patternKey (.obj wpC) = .ok 5
        ∧ evaluate_condition (pyStr (dgetD wpA "condition" (.str ""))) emptyDocMetrics = true
        ∧ evaluate_condition (pyStr (dgetD wpB "condition" (.str ""))) emptyDocMetrics = true
        ∧ evaluate_condition (pyStr (dgetD wpC "condition" (.str ""))) emptyDocMetrics = true)
      ∧ generate_recommendations
          (.parsed [("patterns", JVal.arr [.obj wpA, .obj wpB, .obj wpC])]) []
        = .ok [patternRec wpB emptyDocValues, patternRec wpA emptyDocValues,
               patternRec wpC emptyDocValues] :=
  ⟨⟨by decide, by decide, by decide, by decide, by decide, by decide, by decide, by decide⟩,
   c5_priority_stable_sort [] (.obj wpA) (.obj wpB) (.obj wpC) wpA wpB wpC
     emptyDocValues emptyDocMetrics (by decide) (by decide) rfl rfl rfl
     (by decide) (by decide) (by decide) (by decide) (by decide) (by decide)⟩

theorem runPatterns_mem {values : List (String × String)} {metrics : List (String × ℚ)}
    {ps : List (ℤ × JVal)} {l : List Rec} (h : runPatterns values metrics ps = .ok l) :
    ∀ r ∈ l, ∃ pd, r = patternRec pd values := by
  induction ps generalizing l with
  | nil =>
    simp only [runPatterns] at h
    injection h with h2
    intro r hr
    rw [← h2] at hr
    simp at hr
  | cons hd tl ih =>
    obtain ⟨k, p⟩ := hd
    unfold runPatterns at h
    cases ha : asDictE p with
    | error e => rw [ha] at h; simp at h
    | ok pd =>
      rw [ha] at h
      simp only [ok_bind] at h
      split at h
      · cases hr : runPatterns values metrics tl with
        | error e => rw [hr] at h; simp at h
        | ok tlRes =>
          rw [hr] at h
          simp only [ok_bind, pure_eq_ok, Except.ok.injEq] at h
          intro r hrm
          rw [← h] at hrm
          rcases List.mem_cons.mp hrm with hre | hrt
          · exact ⟨pd, hre⟩
          · exact ih hr r hrt
      · exact ih h

theorem catalogTry_mem {root : List (String × JVal)} {values : List (String × String)}
    {metrics : List (String × ℚ)} {rs : List Rec}
    (h : catalogTry root values metrics = .ok rs) :
    ∀ r ∈ rs, ∃ pd, r = patternRec pd values := by
  unfold catalogTry at h
  cases hv : dgetD root "patterns" (JVal.arr []) with
  | arr ps =>
    rw [hv] at h
    have hb : (patternKeys ps >>= fun ks =>
        runPatterns values metrics (stableSortKeyed ks)) = .ok rs := h
    cases hk : patternKeys ps with
    | error e => rw [hk] at hb; simp at hb
    | ok ks =>
      rw [hk] at hb
      simp only [ok_bind] at hb
      exact runPatterns_mem hb
  | str s =>
    rw [hv] at h
    have hb : (if s = "" then (.ok [] : Except String (List Rec))
        else .error "AttributeError") = .ok rs := h
    split at hb
    · simp only [Except.ok.injEq] at hb
      intro r hr
      rw [← hb] at hr
      simp at hr
    · simp at hb
  | obj kvs =>
    rw [hv] at h
    have hb : (if kvs.isEmpty then (.ok [] : Except String (List Rec))
        else .error "AttributeError") = .ok rs := h
    split at hb
    · simp only [Except.ok.injEq] at hb
      intro r hr
      rw [← hb] at hr
      simp at hr
    · simp at hb
  | null => rw [hv] at h; exact absurd h (by simp)
  | bool b => rw [hv] at h; exact absurd h (by simp)
  | num n => rw [hv] at h; exact absurd h (by simp)

theorem catalogBranch_mem {catalog : CatalogFile} {values : List (String × String)}
    {metrics : List (String × ℚ)} {r : Rec}
    (h : r ∈ catalogBranch catalog values metrics) : ∃ pd, r = patternRec pd values := by
  cases catalog with
  | missing => simp [catalogBranch] at h
  | unparsable => simp [catalogBranch] at h
  | parsed root =>
    have h2 : r ∈ (match catalogTry root values metrics with
        | Except.ok rs => rs
        | Except.error _ => []) := h
    cases hct : catalogTry root values metrics with
    | error e => rw [hct] at h2; simp at h2
    | ok rs =>
      rw [hct] at h2
      exact catalogTry_mem hct r h2

theorem mem_fb_generic {l : List Rec} {r : Rec} (h : r ∈ fb_generic l) :
    r = genericRec ∨ r ∈ l := by
  unfold fb_generic at h
  split at h
  · rcases List.mem_append.mp h with hl | hr
    · exact Or.inr hl
    · exact Or.inl (by simpa using hr)
  · exact Or.inr h

/-- The six condition-triggered fallback records, up to their computed
arguments. -/
def condFallbackShape (r : Rec) : Prop :=
  (∃ u, r = hbRec u) ∨ (∃ s, r = cleanupRec s) ∨ (∃ q, r = errRec q) ∨
    (∃ n, r = ratioRec n) ∨ (∃ s, r = overflowRec s) ∨ r = threeAmRec

theorem condFallbackShape_config_none {r : Rec} (h : condFallbackShape r) :
    r.config_change = none := by
  rcases h with ⟨u, he⟩ | ⟨s, he⟩ | ⟨q, he⟩ | ⟨n, he⟩ | ⟨s, he⟩ | he <;> rw [he] <;> rfl

theorem shape_hb (u : ℚ) : condFallbackShape (hbRec u) := Or.inl ⟨u, rfl⟩
theorem shape_cleanup (s : String) : condFallbackShape (cleanupRec s) := Or.inr (Or.inl ⟨s, rfl⟩)
theorem shape_err (q : ℚ) : condFallbackShape (errRec q) := Or.inr (Or.inr (Or.inl ⟨q, rfl⟩))
theorem shape_ratio (n : ℤ) : condFallbackShape (ratioRec n) :=
  Or.inr (Or.inr (Or.inr (Or.inl ⟨n, rfl⟩)))
theorem shape_overflow (s : String) : condFallbackShape (overflowRec s) :=
  Or.inr (Or.inr (Or.inr (Or.inr (Or.inl ⟨s, rfl⟩))))
theorem shape_three_am : condFallbackShape threeAmRec :=
  Or.inr (Or.inr (Or.inr (Or.inr (Or.inr rfl))))

/-- Every element of the final fallback list is an element of the list the
chain started from, the generic record, or a condition-triggered fallback. -/
theorem chain_mem {values : List (String × String)}
    {skills tasks health auto by_source : List (String × JVal)} {recs0 r2 r3 r4 r5 : List Rec}
    (h2 : fb_cleanup skills (fb_heartbeat values by_source recs0) = .ok r2)
    (h3 : fb_error_rate tasks health r2 = .ok r3)
    (h4 : fb_rw health r3 = .ok r4)
    (h5 : fb_overflow health r4 = .ok r5)
    {r : Rec} (hr : r ∈ fb_generic (fb_three_am auto r5)) :
    r ∈ recs0 ∨ r = genericRec ∨ condFallbackShape r := by
  rcases mem_fb_generic hr with hgen | hr6
  · exact Or.inr (Or.inl hgen)
  have hr5 : r ∈ r5 ∨ condFallbackShape r := by
    rcases fb_three_am_shape auto r5 with he | he
    · rw [he] at hr6; exact Or.inl hr6
    · rw [he] at hr6
      rcases List.mem_append.mp hr6 with h' | h''
      · exact Or.inl h'
      · have hrr : r = threeAmRec := by simpa using h''
        rw [hrr]; exact Or.inr shape_three_am
  rcases hr5 with hr5 | hcf
  swap
  · exact Or.inr (Or.inr hcf)
  have hr4 : r ∈ r4 ∨ condFallbackShape r := by
    rcases fb_overflow_shape h5 with he | ⟨s, he⟩
    · rw [he] at hr5; exact Or.inl hr5
    · rw [he] at hr5
      rcases List.mem_append.mp hr5 with h' | h''
      · exact Or.inl h'
      · have hrr : r = overflowRec s := by simpa using h''
        rw [hrr]; exact Or.inr (shape_overflow s)
  rcases hr4 with hr4 | hcf
  swap
  · exact Or.inr (Or.inr hcf)
  have hr3 : r ∈ r3 ∨ condFallbackShape r := by
    rcases fb_rw_shape h4 with he | ⟨n, he⟩
    · rw [he] at hr4; exact Or.inl hr4
    · rw [he] at hr4
      rcases List.mem_append.mp hr4 with h' | h''
      · exact Or.inl h'
      · have hrr : r = ratioRec n := by simpa using h''
        rw [hrr]; exact Or.inr (shape_ratio n)
  rcases hr3 with hr3 | hcf
  swap
  · exact Or.inr (Or.inr hcf)
  have hr2 : r ∈ r2 ∨ condFallbackShape r := by
    rcases fb_error_rate_shape h3 with he | ⟨q, he⟩
    · rw [he] at hr3; exact Or.inl hr3
    · rw [he] at hr3
      rcases List.mem_append.mp hr3 with h' | h''
      · exact Or.inl h'
      · have hrr : r = errRec q := by simpa using h''
        rw [hrr]; exact Or.inr (shape_err q)
  rcases hr2 with hr2 | hcf
  swap
  · exact Or.inr (Or.inr hcf)
  have hr1 : r ∈ fb_heartbeat values by_source recs0 ∨ condFallbackShape r := by
    rcases fb_cleanup_shape h2 with he | ⟨s, he⟩
    · rw [he] at hr2; exact Or.inl hr2
    · rw [he] at hr2
      rcases List.mem_append.mp hr2 with h' | h''
      · exact Or.inl h'
      · have hrr : r = cleanupRec s := by simpa using h''
        rw [hrr]; exact Or.inr (shape_cleanup s)
  rcases hr1 with hr1 | hcf
  swap
  · exact Or.inr (Or.inr hcf)
  rcases fb_heartbeat_shape values by_source recs0 with he | ⟨u, he⟩
  · rw [he] at hr1; exact Or.inl hr1
  · rw [he] at hr1
    rcases List.mem_append.mp hr1 with h' | h''
    · exact Or.inl h'
    · have hrr : r = hbRec u := by simpa using h''
      rw [hrr]; exact Or.inr (Or.inr (shape_hb u))

/-- C10: the output record shape is not uniform — every catalog-derived
recommendation carries a `config_change` field (the empty string when the
rule supplies none), the generic fallback carries `config_change = ""`, but
the six condition-triggered fallback records carry no `config_change` key at
all; and in any returned list, a record without the key is one of the six
condition-triggered fallbacks while a record with the key is catalog-derived
or the generic fallback. -/
theorem c10_config_change_presence :
    (∀ (pd : List (String × JVal)) (values : List (String × String)),
        (patternRec pd values).config_change = some (configChangeStr pd))
      ∧ genericRec.config_change = some ""
      ∧ (∀ u, (hbRec u).config_change = none)
      ∧ (∀ s, (cleanupRec s).config_change = none)
      ∧ (∀ q, (errRec q).config_change = none)
      ∧ (∀ n, (ratioRec n).config_change = none)
      ∧ (∀ s, (overflowRec s).config_change = none)
      ∧ threeAmRec.config_change = none
      ∧ (∀ (catalog : CatalogFile) (analysis : List (String × JVal)) (result : List Rec),
          generate_recommendations catalog analysis = .ok result →
            ∀ r ∈ result,
              (r.config_change = none → condFallbackShape r)
                ∧ (r.config_change ≠ none →
                    (∃ pd values, r = patternRec pd values) ∨ r = genericRec)) := by
  refine ⟨fun pd values => rfl, rfl, fun u => rfl, fun s => rfl, fun q => rfl,
    fun n => rfl, fun s => rfl, rfl, ?_⟩
  intro catalog analysis result h r hr
  unfold generate_recommendations at h
  cases hpv : placeholder_values analysis with
  | error e => rw [hpv] at h; simp at h
  | ok values =>
  rw [hpv] at h
  simp only [ok_bind] at h
  cases hbm : build_metrics analysis with
  | error e => rw [hbm] at h; simp at h
  | ok metrics =>
  rw [hbm] at h
  simp only [ok_bind] at h
  by_cases hc : (catalogBranch catalog values metrics).isEmpty
  · rw [if_neg (by simp [hc])] at h
    cases h2 : fb_cleanup (as_dict (dget analysis "skills"))
        (fb_heartbeat values (as_dict (dget (as_dict (dget analysis "cost")) "by_source"))
          (catalogBranch catalog values metrics)) with
    | error e => rw [h2] at h; simp at h
    | ok r2 =>
    rw [h2] at h
    simp only [ok_bind] at h
    cases h3 : fb_error_rate (as_dict (dget analysis "tasks"))
        (as_dict (dget analysis "health")) r2 with
    | error e => rw [h3] at h; simp at h
    | ok r3 =>
    rw [h3] at h
    simp only [ok_bind] at h
    cases h4 : fb_rw (as_dict (dget analysis "health")) r3 with
    | error e => rw [h4] at h; simp at h
    | ok r4 =>
    rw [h4] at h
    simp only [ok_bind] at h
    cases h5 : fb_overflow (as_dict (dget analysis "health")) r4 with
    | error e => rw [h5] at h; simp at h
    | ok r5 =>
    rw [h5] at h
    simp only [ok_bind, pure_eq_ok, Except.ok.injEq] at h
    rw [← h] at hr
    have hr6 : r ∈ fb_generic (fb_three_am (as_dict (dget analysis "autonomous")) r5) :=
      List.take_subset _ _ hr
    rcases chain_mem h2 h3 h4 h5 hr6 with hcatm | hgen | hcf
    · obtain ⟨pd, hpd⟩ := catalogBranch_mem hcatm
      constructor
      · intro hnone
        rw [hpd] at hnone
        exact absurd hnone (by simp [patternRec])
      · intro _
        exact Or.inl ⟨pd, values, hpd⟩
    · constructor
      · intro hnone
        rw [hgen] at hnone
        exact absurd hnone (by simp [genericRec])
      · intro _
        exact Or.inr hgen
    · constructor
      · intro _
        exact hcf
      · intro hne
        exact absurd (condFallbackShape_config_none hcf) hne
  · rw [if_pos (by simp [hc])] at h
    simp only [pure_eq_ok, Except.ok.injEq] at h
    rw [← h] at hr
    have hcatm : r ∈ catalogBranch catalog values metrics := List.take_subset _ _ hr
    obtain ⟨pd, hpd⟩ := catalogBranch_mem hcatm
    constructor
    · intro hnone
      rw [hpd] at hnone
      exact absurd hnone (by simp [patternRec])
    · intro _
      exact Or.inl ⟨pd, values, hpd⟩

theorem c10_config_change_presence_witness :
    (generate_recommendations .missing [] = .ok [genericRec])
      ∧ ((genericRec.config_change = none → condFallbackShape genericRec)
        ∧ (genericRec.config_change ≠ none →
            (∃ pd values, genericRec = patternRec pd values) ∨ genericRec = genericRec)) :=
  ⟨by decide,
   c10_config_change_presence.2.2.2.2.2.2.2.2 .missing [] [genericRec]
     (by decide) genericRec (by simp)⟩

/-! ### C9 apparatus: rewrite equations for the fuelled text scanners -/

theorem listStartsWith_self_append (p t : List Char) : listStartsWith p (p ++ t) = true := by
  induction p with
  | nil => rfl
  | cons a as ih => simp [listStartsWith, ih]

theorem replaceAllGo_stable (pat rep : List Char) (hpat : pat ≠ []) :
    ∀ (f : ℕ) (s : List Char), s.length < f →
      replaceAllGo pat rep f s = replaceAllGo pat rep (s.length + 1) s := by
  intro f
  induction f using Nat.strong_induction_on with
  | _ f ih =>
    intro s hf
    match f, s with
    | 0, s => omega
    | f + 1, [] => rfl
    | f + 1, c :: rest =>
      have hplen : 1 ≤ pat.length := List.length_pos.mpr hpat
      by_cases hsw : listStartsWith pat (c :: rest) = true
      · have hd : ((c :: rest).drop pat.length).length < f := by
          simp only [List.length_drop, List.length_cons]
          simp only [List.length_cons] at hf
          omega
        have hd2 : ((c :: rest).drop pat.length).length < rest.length + 1 := by
          simp only [List.length_drop, List.length_cons]
          omega
        show (if listStartsWith pat (c :: rest) = true then
            rep ++ replaceAllGo pat rep f ((c :: rest).drop pat.length)
          else c :: replaceAllGo pat rep f rest) = _
        rw [if_pos hsw]
        show _ = (if listStartsWith pat (c :: rest) = true then
            rep ++ replaceAllGo pat rep (rest.length + 1) ((c :: rest).drop pat.length)
          else c :: replaceAllGo pat rep (rest.length + 1) rest)
        rw [if_pos hsw]
        rw [ih f (by omega) _ hd, ih (rest.length + 1) (by simp only [List.length_cons] at hf; omega) _ hd2]
      · show (if listStartsWith pat (c :: rest) = true then
            rep ++ replaceAllGo pat rep f ((c :: rest).drop pat.length)
          else c :: replaceAllGo pat rep f rest) = _
        rw [if_neg hsw]
        show _ = (if listStartsWith pat (c :: rest) = true then
            rep ++ replaceAllGo pat rep (rest.length + 1) ((c :: rest).drop pat.length)
          else c :: replaceAllGo pat rep (rest.length + 1) rest)
        rw [if_neg hsw]
        have hr : rest.length < f := by simp only [List.length_cons] at hf; omega
        rw [ih f (by omega) _ hr, ih (rest.length + 1) (by omega) _ (by omega)]

theorem replaceAll_nil (pat rep : List Char) : replaceAll pat rep [] = [] := by
  unfold replaceAll
  split <;> rfl

theorem replaceAll_pos {pat : List Char} (hpat : pat ≠ []) (rep : List Char)
    {c : Char} {rest : List Char} (hsw : listStartsWith pat (c :: rest) = true) :
    replaceAll pat rep (c :: rest) = rep ++ replaceAll pat rep ((c :: rest).drop pat.length) := by
  have hpe : pat.isEmpty = false := by
    cases pat with
    | nil => exact absurd rfl hpat
    | cons a as => rfl
  unfold replaceAll
  rw [hpe]
  simp only [Bool.false_eq_true, if_false, List.length_cons]
  show (if listStartsWith pat (c :: rest) = true then
      rep ++ replaceAllGo pat rep (rest.length + 1) ((c :: rest).drop pat.length)
    else c :: replaceAllGo pat rep (rest.length + 1) rest) = _
  rw [if_pos hsw]
  have hplen : 1 ≤ pat.length := List.length_pos.mpr hpat
  rw [replaceAllGo_stable pat rep hpat (rest.length + 1) _
    (by simp only [List.length_drop, List.length_cons]; omega)]

theorem replaceAll_neg {pat : List Char} (hpat : pat ≠ []) (rep : List Char)
    {c : Char} {rest : List Char} (hsw : listStartsWith pat (c :: rest) = false) :
    replaceAll pat rep (c :: rest) = c :: replaceAll pat rep rest := by
  have hpe : pat.isEmpty = false := by
    cases pat with
    | nil => exact absurd rfl hpat
    | cons a as => rfl
  unfold replaceAll
  rw [hpe]
  simp only [Bool.false_eq_true, if_false, List.length_cons]
  show (if listStartsWith pat (c :: rest) = true then
      rep ++ replaceAllGo pat rep (rest.length + 1) ((c :: rest).drop pat.length)
    else c :: replaceAllGo pat rep (rest.length + 1) rest) = _
  rw [if_neg (by simp [hsw])]

theorem length_dropWhile_le (p : Char → Bool) (l : List Char) :
    (l.dropWhile p).length ≤ l.length := by
  induction l with
  | nil => simp
  | cons a as ih =>
    rw [List.dropWhile_cons]
    split
    · simp only [List.length_cons]; omega
    · simp

theorem subUnresolvedGo_stable :
    ∀ (f : ℕ) (s : List Char), s.length < f →
      subUnresolvedGo f s = subUnresolvedGo (s.length + 1) s := by
  intro f
  induction f using Nat.strong_induction_on with
  | _ f ih =>
    intro s hf
    match f, s with
    | 0, s => omega
    | f + 1, [] => rfl
    | f + 1, c :: rest =>
      simp only [List.length_cons] at hf
      have hdw : (rest.dropWhile isTokenChar).length ≤ rest.length :=
        length_dropWhile_le isTokenChar rest
      have htl : (rest.dropWhile isTokenChar).tail.length ≤ rest.length := by
        have := List.length_tail (rest.dropWhile isTokenChar)
        omega
      by_cases hg : (c = openBrace && !(rest.takeWhile isTokenChar).isEmpty
          && (rest.dropWhile isTokenChar).head? == some closeBrace) = true
      · show (if _ then 'n' :: '/' :: 'a' :: subUnresolvedGo f (rest.dropWhile isTokenChar).tail
            else c :: subUnresolvedGo f rest) = _
        rw [if_pos hg]
        show _ = (if _ then
            'n' :: '/' :: 'a' :: subUnresolvedGo (rest.length + 1) (rest.dropWhile isTokenChar).tail
          else c :: subUnresolvedGo (rest.length + 1) rest)
        rw [if_pos hg]
        rw [ih f (by omega) _ (by omega), ih (rest.length + 1) (by omega) _ (by omega)]
      · show (if _ then 'n' :: '/' :: 'a' :: subUnresolvedGo f (rest.dropWhile isTokenChar).tail
            else c :: subUnresolvedGo f rest) = _
        rw [if_neg hg]
        show _ = (if _ then
            'n' :: '/' :: 'a' :: subUnresolvedGo (rest.length + 1) (rest.dropWhile isTokenChar).tail
          else c :: subUnresolvedGo (rest.length + 1) rest)
        rw [if_neg hg]
        rw [ih f (by omega) _ (by omega)]

theorem subUnresolved_nil : subUnresolved [] = [] := rfl

theorem subUnresolved_cons_neg {c : Char} {rest : List Char}
    (hg : (c = openBrace && !(rest.takeWhile isTokenChar).isEmpty
        && (rest.dropWhile isTokenChar).head? == some closeBrace) = false) :
    subUnresolved (c :: rest) = c :: subUnresolved rest := by
  unfold subUnresolved
  simp only [List.length_cons]
  show (if _ then 'n' :: '/' :: 'a' :: subUnresolvedGo (rest.length + 1)
        (rest.dropWhile isTokenChar).tail
      else c :: subUnresolvedGo (rest.length + 1) rest) = _
  rw [if_neg (by simp [hg])]

theorem takeWhile_append_all {p : Char → Bool} {k t : List Char}
    (h : ∀ c ∈ k, p c = true) : (k ++ t).takeWhile p = k ++ t.takeWhile p := by
  induction k with
  | nil => rfl
  | cons x xs ihx =>
    have hx : p x = true := h x (List.mem_cons_self x xs)
    have hrest : ∀ c ∈ xs, p c = true := fun c hc => h c (List.mem_cons_of_mem x hc)
    simp only [List.cons_append, List.takeWhile_cons, hx, if_true, ihx hrest]

theorem dropWhile_append_all {p : Char → Bool} {k t : List Char}
    (h : ∀ c ∈ k, p c = true) : (k ++ t).dropWhile p = t.dropWhile p := by
  induction k with
  | nil => rfl
  | cons y ys ihy =>
    have hy : p y = true := h y (List.mem_cons_self y ys)
    simp only [List.cons_append, List.dropWhile_cons, hy, if_true]
    exact ihy fun c hc => h c (List.mem_cons_of_mem y hc)

theorem subUnresolved_token {k t : List Char} (hk : k ≠ [])
    (hall : ∀ c ∈ k, isTokenChar c = true) :
    subUnresolved (openBrace :: k ++ closeBrace :: t)
      = 'n' :: '/' :: 'a' :: subUnresolved t := by
  have hclose : isTokenChar closeBrace = false := by decide
  have htw : (k ++ closeBrace :: t).takeWhile isTokenChar = k := by
    rw [takeWhile_append_all hall]
    simp [List.takeWhile_cons, hclose]
  have hdw : (k ++ closeBrace :: t).dropWhile isTokenChar = closeBrace :: t := by
    rw [dropWhile_append_all hall]
    simp [List.dropWhile_cons, hclose]
  unfold subUnresolved
  show (if _ then 'n' :: '/' :: 'a' :: subUnresolvedGo
        ((openBrace :: k ++ closeBrace :: t).length - 1 + 1)
        ((k ++ closeBrace :: t).dropWhile isTokenChar).tail
      else openBrace :: subUnresolvedGo ((openBrace :: k ++ closeBrace :: t).length - 1 + 1)
        (k ++ closeBrace :: t)) = _
  simp only [List.append_eq]
  rw [if_pos (by rw [htw, hdw]; simp [hk])]
  rw [hdw]
  have hlen : t.length < (openBrace :: k ++ closeBrace :: t).length - 1 + 1 := by
    simp only [List.length_cons, List.length_append]
    omega
  show 'n' :: '/' :: 'a' :: subUnresolvedGo ((openBrace :: k ++ closeBrace :: t).length - 1 + 1) t
      = _
  rw [subUnresolvedGo_stable _ t hlen]

/-- A template decomposed into brace-free literal runs and `{token}`
occurrences; `flat` recovers the literal text of the template. -/
inductive Seg where
  | lit (s : List Char)
  | tok (k : List Char)

def Seg.flat : Seg → List Char
  | .lit s => s
  | .tok k => bracePat k

def flattenSegs (segs : List Seg) : List Char := (segs.map Seg.flat).flatten

/-- Well-formed segment: literals contain no brace, tokens are nonempty runs
of `[a-zA-Z0-9_]`. -/
def Seg.wfb : Seg → Bool
  | .lit s => s.all (fun c => !(c = openBrace) && !(c = closeBrace))
  | .tok k => !k.isEmpty && k.all isTokenChar

/-- Well-formed map entry: a token-shaped key and a brace-free value. -/
def tokValWfb (kv : List Char × List Char) : Bool :=
  (!kv.1.isEmpty && kv.1.all isTokenChar)
    && kv.2.all (fun c => !(c = openBrace) && !(c = closeBrace))

/-- The effect of one `str.replace("{k2}", v2)` pass on a segment. -/
def substTok (k2 v2 : List Char) : Seg → Seg
  | .lit s => .lit s
  | .tok k => if k = k2 then .lit v2 else .tok k

/-- The effect of the whole `fill_template` pass on a segment: a token with a
map entry becomes its (first) value, a token without one stays a token. -/
def substSeg (data : List (List Char × List Char)) : Seg → Seg
  | .lit s => .lit s
  | .tok k =>
    match data.lookup k with
    | some v => .lit v
    | none => .tok k

/-- The effect of the manager-note `re.sub` pass on a segment: any remaining
token becomes the literal text `n/a`. -/
def naSeg : Seg → Seg
  | .lit s => .lit s
  | .tok _ => .lit ['n', '/', 'a']

theorem bracePat_ne_nil (k : List Char) : bracePat k ≠ [] := by simp [bracePat]

theorem replaceAll_walk_lit {k2 rep : List Char} {l t : List Char}
    (hl : ∀ c ∈ l, c ≠ openBrace) :
    replaceAll (bracePat k2) rep (l ++ t) = l ++ replaceAll (bracePat k2) rep t := by
  induction l with
  | nil => simp
  | cons c l' ih =>
    have hc : c ≠ openBrace := hl c (by simp)
    have hsw : listStartsWith (bracePat k2) (c :: (l' ++ t)) = false := by
      simp [bracePat, listStartsWith, Ne.symm hc]
    rw [List.cons_append, replaceAll_neg (bracePat_ne_nil k2) rep hsw,
      ih (fun c hc2 => hl c (by simp [hc2]))]
    rfl

theorem replaceAll_token_hit (k2 rep t : List Char) :
    replaceAll (bracePat k2) rep (bracePat k2 ++ t)
      = rep ++ replaceAll (bracePat k2) rep t := by
  have hcons : bracePat k2 ++ t = openBrace :: ((k2 ++ [closeBrace]) ++ t) := by
    simp [bracePat]
  have hsw : listStartsWith (bracePat k2) (openBrace :: ((k2 ++ [closeBrace]) ++ t)) = true := by
    rw [← hcons]
    exact listStartsWith_self_append _ _
  rw [hcons, replaceAll_pos (bracePat_ne_nil k2) rep hsw]
  congr 1
  have hdrop : (openBrace :: ((k2 ++ [closeBrace]) ++ t)).drop (bracePat k2).length = t := by
    have h2 : openBrace :: ((k2 ++ [closeBrace]) ++ t) = bracePat k2 ++ t := hcons.symm
    rw [h2, List.drop_left]
  rw [hdrop]

theorem tokens_no_prefix : ∀ (k2 k t : List Char),
    (∀ c ∈ k, isTokenChar c = true) → (∀ c ∈ k2, isTokenChar c = true) → k ≠ k2 →
    listStartsWith (k2 ++ [closeBrace]) (k ++ closeBrace :: t) = false := by
  intro k2
  induction k2 with
  | nil =>
    intro k t hk _ hne
    cases k with
    | nil => exact absurd rfl hne
    | cons c k' =>
      have hc : isTokenChar c = true := hk c (by simp)
      have hcc : c ≠ closeBrace := by
        intro he; rw [he] at hc; exact absurd hc (by decide)
      simp [listStartsWith, Ne.symm hcc]
  | cons c2 k2' ih =>
    intro k t hk hk2 hne
    have hc2 : isTokenChar c2 = true := hk2 c2 (by simp)
    cases k with
    | nil =>
      have hcc : c2 ≠ closeBrace := by
        intro he; rw [he] at hc2; exact absurd hc2 (by decide)
      simp [listStartsWith, hcc]
    | cons c k' =>
      by_cases hcc : c2 = c
      · subst hcc
        have hne' : k' ≠ k2' := by
          intro he; exact hne (by rw [he])
        have hres := ih k' t (fun c hc => hk c (by simp [hc]))
          (fun c hc => hk2 c (by simp [hc])) hne'
        simp [listStartsWith, hres]
      · simp [listStartsWith, hcc]

theorem replaceAll_flatten (k2 v2 : List Char)
    (hk2 : ∀ c ∈ k2, isTokenChar c = true) :
    ∀ segs : List Seg, (∀ s ∈ segs, Seg.wfb s = true) →
      replaceAll (bracePat k2) v2 (flattenSegs segs)
        = flattenSegs (segs.map (substTok k2 v2)) := by
  intro segs
  induction segs with
  | nil => intro _; simp [flattenSegs, replaceAll_nil]
  | cons s rest ih =>
    intro hwf
    have hrest : ∀ s ∈ rest, Seg.wfb s = true := fun s hs => hwf s (by simp [hs])
    cases s with
    | lit l =>
      have hfl : flattenSegs (Seg.lit l :: rest) = l ++ flattenSegs rest := by
        simp [flattenSegs, Seg.flat]
      have hlw : ∀ c ∈ l, c ≠ openBrace := by
        intro c hc heq
        have hwl := hwf (Seg.lit l) (by simp)
        simp only [Seg.wfb, List.all_eq_true] at hwl
        have := hwl c hc
        rw [heq] at this
        simp at this
      rw [hfl, replaceAll_walk_lit hlw, ih hrest]
      simp [flattenSegs, substTok, Seg.flat]
    | tok k =>
      have hfl : flattenSegs (Seg.tok k :: rest) = bracePat k ++ flattenSegs rest := by
        simp [flattenSegs, Seg.flat]
      have hwk := hwf (Seg.tok k) (by simp)
      simp only [Seg.wfb, Bool.and_eq_true, List.all_eq_true] at hwk
      by_cases hkk : k = k2
      · subst hkk
        rw [hfl, replaceAll_token_hit, ih hrest]
        simp [flattenSegs, substTok, Seg.flat]
      · rw [hfl]
        have hform : bracePat k ++ flattenSegs rest
            = openBrace :: (k ++ closeBrace :: flattenSegs rest) := by
          simp [bracePat]
        rw [hform]
        have hsw : listStartsWith (bracePat k2)
            (openBrace :: (k ++ closeBrace :: flattenSegs rest)) = false := by
          have hnp := tokens_no_prefix k2 k (flattenSegs rest) hwk.2 hk2 hkk
          simp [bracePat, listStartsWith, hnp]
        rw [replaceAll_neg (bracePat_ne_nil k2) v2 hsw]
        have hkw : ∀ c ∈ k, c ≠ openBrace := by
          intro c hc heq
          have := hwk.2 c hc
          rw [heq] at this
          exact absurd this (by decide)
        rw [replaceAll_walk_lit hkw]
        have hsw2 : listStartsWith (bracePat k2)
            (closeBrace :: flattenSegs rest) = false := by
          simp [bracePat, listStartsWith]
          intro h
          exact absurd h (by decide)
        rw [replaceAll_neg (bracePat_ne_nil k2) v2 hsw2, ih hrest]
        simp [flattenSegs, substTok, Seg.flat, hkk, bracePat]

theorem lookup_val_mem {data : List (List Char × List Char)} {k v : List Char}
    (h : data.lookup k = some v) : ∃ a, (a, v) ∈ data := by
  induction data with
  | nil => simp [List.lookup] at h
  | cons kv rest ih =>
    obtain ⟨a, b⟩ := kv
    rw [List.lookup] at h
    cases hk : k == a with
    | true =>
      simp only [hk] at h
      injection h with h2
      exact ⟨a, by rw [← h2]; simp⟩
    | false =>
      simp only [hk] at h
      obtain ⟨a2, hm⟩ := ih h
      exact ⟨a2, by simp [hm]⟩

theorem substTok_wf {k2 v2 : List Char}
    (hv2 : v2.all (fun c => !(c = openBrace) && !(c = closeBrace)) = true)
    {s : Seg} (hs : Seg.wfb s = true) : Seg.wfb (substTok k2 v2 s) = true := by
  cases s with
  | lit l => exact hs
  | tok k =>
    by_cases hkk : k = k2
    · show Seg.wfb (if k = k2 then Seg.lit v2 else Seg.tok k) = true
      rw [if_pos hkk]
      exact hv2
    · show Seg.wfb (if k = k2 then Seg.lit v2 else Seg.tok k) = true
      rw [if_neg hkk]
      exact hs

theorem substSeg_wf {data : List (List Char × List Char)}
    (hdata : ∀ kv ∈ data, tokValWfb kv = true)
    {s : Seg} (hs : Seg.wfb s = true) : Seg.wfb (substSeg data s) = true := by
  cases s with
  | lit l => exact hs
  | tok k =>
    show Seg.wfb (match data.lookup k with
      | some v => Seg.lit v
      | none => Seg.tok k) = true
    cases hl : data.lookup k with
    | none => exact hs
    | some v =>
      obtain ⟨a, hm⟩ := lookup_val_mem hl
      have h2 := hdata (a, v) hm
      simp only [tokValWfb, Bool.and_eq_true] at h2
      exact h2.2

theorem substSeg_cons (kv : List Char × List Char) (data : List (List Char × List Char))
    (s : Seg) : substSeg data (substTok kv.1 kv.2 s) = substSeg (kv :: data) s := by
  obtain ⟨k2, v2⟩ := kv
  cases s with
  | lit l => rfl
  | tok k =>
    by_cases hkk : k = k2
    · subst hkk
      show substSeg data (if k = k then Seg.lit v2 else Seg.tok k) = _
      rw [if_pos rfl]
      show Seg.lit v2 = (match List.lookup k ((k, v2) :: data) with
        | some v => Seg.lit v
        | none => Seg.tok k)
      have hlk : List.lookup k ((k, v2) :: data) = some v2 := by
        simp [List.lookup]
      rw [hlk]
    · show substSeg data (if k = k2 then Seg.lit v2 else Seg.tok k) = _
      rw [if_neg hkk]
      show (match List.lookup k data with
        | some v => Seg.lit v
        | none => Seg.tok k) = (match List.lookup k ((k2, v2) :: data) with
        | some v => Seg.lit v
        | none => Seg.tok k)
      have hlk : List.lookup k ((k2, v2) :: data) = List.lookup k data := by
        have hb : (k == k2) = false := by
          simp [hkk]
        simp [List.lookup, hb]
      rw [hlk]

theorem fill_core_flatten :
    ∀ (data : List (List Char × List Char)) (segs : List Seg),
      (∀ kv ∈ data, tokValWfb kv = true) → (∀ s ∈ segs, Seg.wfb s = true) →
      fill_core data (flattenSegs segs) = flattenSegs (segs.map (substSeg data)) := by
  intro data
  induction data with
  | nil =>
    intro segs _ _
    show flattenSegs segs = _
    congr 1
    have hid : ∀ s ∈ segs, substSeg [] s = s := by
      intro s _
      cases s <;> rfl
    calc segs = segs.map id := by rw [List.map_id]
    _ = segs.map (substSeg []) := List.map_congr_left (fun s hs => (hid s hs).symm)
  | cons kv data' ih =>
    intro segs hd hw
    have hkv := hd kv (by simp)
    simp only [tokValWfb, Bool.and_eq_true] at hkv
    have h1 : fill_core (kv :: data') (flattenSegs segs)
        = fill_core data' (replaceAll (bracePat kv.1) kv.2 (flattenSegs segs)) := rfl
    rw [h1, replaceAll_flatten kv.1 kv.2 (by
      intro c hc
      have := hkv.1.2
      rw [List.all_eq_true] at this
      exact this c hc) segs hw]
    rw [ih (segs.map (substTok kv.1 kv.2)) (fun kv2 h2 => hd kv2 (by simp [h2]))
      (by
        intro s hs
        rw [List.mem_map] at hs
        obtain ⟨s0, hs0, he⟩ := hs
        rw [← he]
        exact substTok_wf hkv.2 (hw s0 hs0))]
    rw [List.map_map]
    congr 1
    exact List.map_congr_left (fun s _ => substSeg_cons kv data' s)

theorem subUnresolved_walk_lit {l t : List Char} (hl : ∀ c ∈ l, c ≠ openBrace) :
    subUnresolved (l ++ t) = l ++ subUnresolved t := by
  induction l with
  | nil => rfl
  | cons c l' ih =>
    have hc : c ≠ openBrace := hl c (by simp)
    rw [List.cons_append]
    have hd : (decide (c = openBrace)) = false := by simp [hc]
    rw [subUnresolved_cons_neg (by simp [hd])]
    rw [ih (fun c hc2 => hl c (by simp [hc2]))]
    rfl

theorem subUnresolved_flatten :
    ∀ segs : List Seg, (∀ s ∈ segs, Seg.wfb s = true) →
      subUnresolved (flattenSegs segs) = flattenSegs (segs.map naSeg) := by
  intro segs
  induction segs with
  | nil => intro _; rfl
  | cons s rest ih =>
    intro hwf
    have hrest : ∀ s ∈ rest, Seg.wfb s = true := fun s hs => hwf s (by simp [hs])
    cases s with
    | lit l =>
      have hfl : flattenSegs (Seg.lit l :: rest) = l ++ flattenSegs rest := by
        simp [flattenSegs, Seg.flat]
      have hlw : ∀ c ∈ l, c ≠ openBrace := by
        intro c hc heq
        have hwl := hwf (Seg.lit l) (by simp)
        simp only [Seg.wfb, List.all_eq_true] at hwl
        have := hwl c hc
        rw [heq] at this
        simp at this
      rw [hfl, subUnresolved_walk_lit hlw, ih hrest]
      simp [flattenSegs, naSeg, Seg.flat]
    | tok k =>
      have hwk := hwf (Seg.tok k) (by simp)
      simp only [Seg.wfb, Bool.and_eq_true, List.all_eq_true] at hwk
      have hfl : flattenSegs (Seg.tok k :: rest)
          = openBrace :: k ++ closeBrace :: flattenSegs rest := by
        simp [flattenSegs, Seg.flat, bracePat]
      rw [hfl, subUnresolved_token (by simpa [List.isEmpty_iff] using hwk.1) hwk.2, ih hrest]
      simp [flattenSegs, naSeg, Seg.flat]

/-- C9: template rendering is asymmetric about unresolved tokens.  For every
template (decomposed into brace-free literals and `{token}` occurrences) and
every placeholder map with token-shaped keys and brace-free values,
`fill_template` replaces each `{token}` that has a map entry by the entry's
value and leaves each `{token}` without an entry as the literal text
`{token}` (the `substSeg` action), while the manager-note renderer
additionally turns every still-unresolved `{token}` into the literal text
`n/a` (the `naSeg` action on what remains). -/
theorem c9_renderer_asymmetry :
    ∀ (segs : List Seg) (data : List (String × String)),
      (∀ s ∈ segs, Seg.wfb s = true) →
      (∀ kv ∈ data, tokValWfb (kv.1.toList, kv.2.toList) = true) →
      fill_template (String.mk (flattenSegs segs)) data
          = String.mk (flattenSegs (segs.map
              (substSeg (data.map (fun kv => (kv.1.toList, kv.2.toList))))))
        ∧ render_manager_note (String.mk (flattenSegs segs)) data
          = String.mk (flattenSegs ((segs.map
              (substSeg (data.map (fun kv => (kv.1.toList, kv.2.toList))))).map naSeg)) := by
  intro segs data hsegs hdata
  have hdataL : ∀ kv ∈ data.map (fun kv => (kv.1.toList, kv.2.toList)),
      tokValWfb kv = true := by
    intro kv hkv
    rw [List.mem_map] at hkv
    obtain ⟨kv0, h0, he⟩ := hkv
    rw [← he]
    exact hdata kv0 h0
  have h1 : fill_template (String.mk (flattenSegs segs)) data
      = String.mk (fill_core (data.map fun kv => (kv.1.toList, kv.2.toList))
          (flattenSegs segs)) := rfl
  constructor
  · rw [h1, fill_core_flatten _ segs hdataL hsegs]
  · have h2 : render_manager_note (String.mk (flattenSegs segs)) data
        = String.mk (subUnresolved (fill_core (data.map fun kv => (kv.1.toList, kv.2.toList))
            (flattenSegs segs))) := rfl
    rw [h2, fill_core_flatten _ segs hdataL hsegs]
    rw [subUnresolved_flatten _ (fun s hs => by
      rw [List.mem_map] at hs
      obtain ⟨s0, hs0, he⟩ := hs
      rw [← he]
      exact substSeg_wf hdataL (hsegs s0 hs0))]

def w9Segs : List Seg :=
  [.lit "rate ".toList, .tok "completion_rate".toList,
   .lit "% ".toList, .tok "typo_field".toList]

def w9Data : List (String × String) := [("completion_rate", "81")]

theorem c9_renderer_asymmetry_witness :
    ((∀ s ∈ w9Segs, Seg.wfb s = true)
        ∧ (∀ kv ∈ w9Data, tokValWfb (kv.1.toList, kv.2.toList) = true))
      ∧ (fill_template (String.mk (flattenSegs w9Segs)) w9Data
          = String.mk (flattenSegs (w9Segs.map
              (substSeg (w9Data.map (fun kv => (kv.1.toList, kv.2.toList))))))
        ∧ render_manager_note (String.mk (flattenSegs w9Segs)) w9Data
          = String.mk (flattenSegs ((w9Segs.map
              (substSeg (w9Data.map (fun kv => (kv.1.toList, kv.2.toList))))).map naSeg))) :=
  ⟨⟨by decide, by decide⟩, c9_renderer_asymmetry w9Segs w9Data (by decide) (by decide)⟩

end Engine

/- Executable sanity checks: the embedded primitives reproduce the Python
behaviour on hand-traced concrete inputs. -/
section SanityChecks
open Engine
example : fmtMoney (10 * (35 / 100)) = "3.50" := by decide
example : fmtMoney (1234567891 / 1000) = "1,234,567.89" := by decide
example : fmtFixed 2 (-1 / 10000) = "-0.00" := by decide
example : fmtFixed 2 (125 / 1000) = "0.12" := by decide
example : roundHalfEven (5 / 2) = 2 ∧ roundHalfEven (-5 / 2) = -2 ∧ roundHalfEven (-7 / 2) = -4 := by decide
example : safe_float (.str "40") 0 = 40 := by decide
example : safe_float (.str " -1.5e2 ") 0 = -150 := by decide
example : safe_float (.str "inf") 7 = 7 := by decide
example : safe_float (.num (.float .nan)) 3 = 3 := by decide
example : safe_int (.num (.float .inf)) 0 = .error infIntErr := by decide
example : safe_int (.str "2.9") 0 = .ok 2 := by decide
example : pyStr (.arr [.num (.int 1), .str "a"]) = "[1, 'a']" := by decide
example : pyStr (.obj [("k", .num (.float (.val (3 / 2))))]) = "\x7b'k': 1.5\x7d" := by decide
example : fmtPF1 (.val (5 / 2)) = "2.5" ∧ fmtPF1 (.val 3) = "3.0" := by decide
example : Engine.pyJoin ", " [.num (.int 1)] = .error joinErr := by decide
example : evaluate_condition "a>5 AND b<2 OR c==3" [("a", 6), ("b", 1), ("c", 0)] = true := by decide
example : evaluate_condition "a>5 AND b<2 OR c==3" [("a", 1), ("b", 1), ("c", 3)] = true := by decide
example : evaluate_condition "a>5 AND b<2 OR c==3" [("a", 1), ("b", 1), ("c", 0)] = false := by decide
example : evaluate_condition "ghost>1" [("a", 5)] = false := by decide
example : evaluate_condition "ghost<=0" [("a", 5)] = true := by decide
example : evaluate_condition "" [("a", 5)] = false := by decide
example : evaluate_condition "   " [("a", 5)] = false := by decide
example : evaluate_condition "a >= -1.5" [("a", 5)] = true := by decide
example : evaluate_condition "a > nonsense" [("a", 5)] = false := by decide
example : evaluate_condition "a>0 and B<2 or c==3" [("a", 1), ("B", 1)] = true := by decide
example : evaluate_condition "x>=0" [] = true := by decide
end SanityChecks
